import Mathlib

/-!
Verification development for the Instagram publish orchestrator of the
Pistacho application (`functions/api/instagram/publish.js`): score
formatting, caption composition, media readiness polling, and the
publish request flow.

Modelling conventions: JavaScript strings are Lean strings (lists of
unicode scalar values), JavaScript numbers are idealised as exact
rationals plus `NaN` and the infinities, `null`/`undefined`/absent
values are `Option`, fallible steps return `Except`, and the remote
platform is an explicit stub whose responses are inputs; every remote
platform interaction performed by the orchestrator is recorded in an
event trace.
-/
/-- Default caption template (`DEFAULT_TEMPLATE` in the source). -/

def DEFAULT_TEMPLATE : String :=
  "\x7b\x7btitle\x7d\x7d 获得 \x7b\x7bscore\x7d\x7d 分! \n\n\x7b\x7breview\x7d\x7d\n\n#Cigar #Pistacho."

/-- JavaScript `a || b` for strings: `b` exactly when `a` is falsy (empty). -/

def jsOrStr (a b : String) : String := if a = "" then b else a

/-- JavaScript `a || b` where `a` is a string-or-nullish value and `b` a string. -/

def jsOrOpt (a : Option String) (b : String) : String :=
  match a with
  | some s => if s = "" then b else s
  | none => b

/-- Truthiness of a string-or-nullish JavaScript value. -/

def truthyStr (a : Option String) : Bool :=
  match a with
  | some s => s != ""
  | none => false

/-- A JavaScript number: `NaN`, a signed infinity, or a finite value
(idealised as an exact rational). -/

inductive JsNumber where
  | nan
  | posInf
  | negInf
  | fin (q : ℚ)
deriving DecidableEq

/-- Values the `score` argument of `formatScore` can hold in the program:
`null`/`undefined`, the empty string (produced by `fetchRating`'s
`normalizedScore ?? ''` fallback), or a number. -/

inductive ScoreVal where
  | null
  | emptyStr
  | num (x : JsNumber)
deriving DecidableEq

/-- JavaScript `Number(v)` on a `ScoreVal`: `Number(null) = 0` and
`Number('') = 0`; numbers convert to themselves. -/

def scoreToNumber : ScoreVal → JsNumber
  | .null => .fin (mkRat 0 1)
  | .emptyStr => .fin (mkRat 0 1)
  | .num x => x

/-- The integer `n` such that `n / 100` is closest to `q`, ties resolved
toward the larger `n` — the digit string selected by
`Number.prototype.toFixed(2)` (idealised over exact rationals). -/

def toFixed2Hundredths (q : ℚ) : ℤ := (200 * q.num + q.den).fdiv (2 * q.den)

/-- Decimal rendering of `Number(s).toString()` for a two-decimal digit
string holding `n` hundredths: trailing zeros trimmed, `-0` printed `0`. -/

def renderHundredths (n : ℤ) : String :=
  let sign := if n < 0 then "-" else ""
  let a := n.natAbs
  if a % 100 = 0 then sign ++ toString (a / 100)
  else if a % 10 = 0 then sign ++ toString (a / 100) ++ "." ++ toString (a % 100 / 10)
  else sign ++ toString (a / 100) ++ "." ++ (if a % 100 < 10 then "0" else "") ++ toString (a % 100)

/-- `formatScore` from the source: empty string for nullish input, for
`Number(score)` being `NaN`, and for non-finite values; otherwise
`Number(num.toFixed(2)).toString()`. -/

def formatScore (score : ScoreVal) : String :=
  if score = .null then ""
  else
    match scoreToNumber score with
    | .nan => ""
    | .posInf => ""
    | .negInf => ""
    | .fin q => renderHundredths (toFixed2Hundredths q)

/-- Characters matched by `\s` in a JavaScript regular expression. -/

def jsSpaceChars : List Char :=
  [' ', '\t', '\n', '\r', '\x0B', '\x0C',
   Char.ofNat 0x00A0, Char.ofNat 0x1680,
   Char.ofNat 0x2000, Char.ofNat 0x2001, Char.ofNat 0x2002, Char.ofNat 0x2003,
   Char.ofNat 0x2004, Char.ofNat 0x2005, Char.ofNat 0x2006, Char.ofNat 0x2007,
   Char.ofNat 0x2008, Char.ofNat 0x2009, Char.ofNat 0x200A,
   Char.ofNat 0x2028, Char.ofNat 0x2029, Char.ofNat 0x202F,
   Char.ofNat 0x205F, Char.ofNat 0x3000, Char.ofNat 0xFEFF]

/-- Whether `c` is matched by `\s`. -/

def isJsSpace (c : Char) : Bool := jsSpaceChars.contains c

/-- Case-insensitive stripping of `key` from the front of the second list
(the `i` flag of the substitution regexes). -/

def stripKeyCI : List Char → List Char → Option (List Char)
  | [], l => some l
  | _ :: _, [] => none
  | k :: ks, c :: cs => if c.toLower = k.toLower then stripKeyCI ks cs else none

/-- Matcher, at the head of `l`, for the substitution regex
`\x7b\x7b\s*key\s*\x7d\x7d` built by `buildCaption`; returns the matched
segment together with the remainder of `l`. -/

def matchKeyAt (key : List Char) (l : List Char) : Option (List Char × List Char) :=
  match l with
  | c1 :: c2 :: t =>
    if c1 = '\x7b' ∧ c2 = '\x7b' then
      match stripKeyCI key (t.dropWhile isJsSpace) with
      | none => none
      | some t2 =>
        match t2.dropWhile isJsSpace with
        | d1 :: d2 :: r =>
          if d1 = '\x7d' ∧ d2 = '\x7d' then some (l.take (l.length - r.length), r)
          else none
        | _ => none
    else none
  | _ => none

/-- Expansion of a string replacement argument of JavaScript
`String.prototype.replace`: `$$` is a literal dollar, `$&` inserts the
match, dollar-backquote inserts the text before the match and
dollar-quote the text after it; anything else is literal. -/

def expandDollar (matched before after : List Char) : List Char → List Char
  | [] => []
  | [c] => [c]
  | c :: d :: r =>
    if c = '$' then
      if d = '$' then '$' :: expandDollar matched before after r
      else if d = '&' then matched ++ expandDollar matched before after r
      else if d = Char.ofNat 96 then before ++ expandDollar matched before after r
      else if d = Char.ofNat 39 then after ++ expandDollar matched before after r
      else c :: expandDollar matched before after (d :: r)
    else c :: expandDollar matched before after (d :: r)

/-- One global pass of
`caption.replace(new RegExp(p, 'gi'), value)` for the placeholder
pattern of `key`: leftmost matches are replaced and replacements are not
rescanned. `pre` accumulates the input already consumed (referenced by
dollar patterns); `fuel` bounds the scan and is never exhausted when it
starts at the length of the subject. -/

def replaceKeyAux (key value : List Char) : Nat → List Char → List Char → List Char
  | _, _, [] => []
  | 0, _, l => l
  | fuel + 1, pre, c :: rest =>
    match matchKeyAt key (c :: rest) with
    | some (m, r) => expandDollar m pre r value ++ replaceKeyAux key value fuel (pre ++ m) r
    | none => c :: replaceKeyAux key value fuel (pre ++ [c]) rest

/-- Global case-insensitive replacement of the `key` placeholder by `value`. -/

def replaceKey (key value l : List Char) : List Char :=
  replaceKeyAux key value l.length [] l

/-- Matcher, at the head of `l`, for the cleanup regex
`\x7b\x7b\s*[^\x7d]+\s*\x7d\x7d`: two opening braces, a nonempty run of
non-closing-brace characters, then two closing braces (the greedy inner
run always ends at the first closing brace); returns the remainder. -/

def matchCleanupAt (l : List Char) : Option (List Char) :=
  match l with
  | c1 :: c2 :: t =>
    if c1 = '\x7b' ∧ c2 = '\x7b' then
      match t.dropWhile (fun c => c != '\x7d') with
      | d1 :: d2 :: r =>
        if (t.takeWhile (fun c => c != '\x7d')) ≠ [] ∧ d1 = '\x7d' ∧ d2 = '\x7d' then some r
        else none
      | _ => none
    else none
  | _ => none

/-- Scanner for `caption.replace(cleanupPattern, '')`: leftmost matches
erased, scan resumes after each erased match. -/

def cleanupAux : Nat → List Char → List Char
  | _, [] => []
  | 0, l => l
  | fuel + 1, c :: rest =>
    match matchCleanupAt (c :: rest) with
    | some r => cleanupAux fuel r
    | none => c :: cleanupAux fuel rest

/-- Erasure of every remaining (well-shaped) placeholder. -/

def cleanupPlaceholders (l : List Char) : List Char := cleanupAux l.length l

/-- The `cigarInfo` object assembled by `fetchRating`. -/

structure CigarInfo where
  name : Option String
  size : Option String
  origin : Option String
deriving DecidableEq

/-- The `finalGrade` object assembled by `fetchRating` (a `name_cn` field
can be present when it came from the stored `fullData` JSON). -/

structure GradeInfo where
  grade : Option String
  name : Option String
  name_cn : Option String
deriving DecidableEq

/-- The rating snapshot returned by `fetchRating` and consumed by
`buildCaption` and the orchestrator. -/

structure RatingData where
  title : String
  score : ScoreVal
  review : String
  reviewer : String
  cigarInfo : CigarInfo
  finalGrade : GradeInfo
  imageUrls : List String
deriving DecidableEq

/-- The replacement table of `buildCaption`, in the source's insertion
order (the order the passes run in). -/

def replacements (data : RatingData) : List (String × String) :=
  [("title", jsOrStr data.title ""),
   ("score", formatScore data.score),
   ("review", jsOrStr data.review ""),
   ("reviewer", jsOrStr data.reviewer ""),
   ("name", jsOrOpt data.cigarInfo.name (jsOrStr data.title "")),
   ("origin", jsOrOpt data.cigarInfo.origin ""),
   ("size", jsOrOpt data.cigarInfo.size ""),
   ("grade", jsOrOpt data.finalGrade.grade ""),
   ("gradeName", jsOrOpt data.finalGrade.name (jsOrOpt data.finalGrade.name_cn ""))]

/-- Core of `buildCaption` over character lists: run the nine
substitution passes in order, then the cleanup pass. -/

def buildCaptionL (template : List Char) (data : RatingData) : List Char :=
  cleanupPlaceholders
    ((replacements data).foldl (fun acc kv => replaceKey kv.1.toList kv.2.toList acc) template)

/-- `buildCaption` from the source: start from `template || DEFAULT_TEMPLATE`,
substitute each known placeholder case-insensitively (whitespace inside
the braces tolerated), then erase remaining placeholders. -/

def buildCaption (template : String) (data : RatingData) : String :=
  (buildCaptionL (jsOrStr template DEFAULT_TEMPLATE).toList data).asString

def emptyRating : RatingData :=
  { title := "", score := .null, review := "", reviewer := "",
    cigarInfo := ⟨none, none, none⟩, finalGrade := ⟨none, none, none⟩, imageUrls := [] }

/-- The `cigarInfo` sub-object of a stored `fullData` JSON blob. -/

structure FullCigarInfo where
  name : Option String
  size : Option String
  origin : Option String
deriving DecidableEq

/-- The `finalGrade` sub-object of a stored `fullData` JSON blob. -/

structure FullGrade where
  grade : Option String
  name : Option String
  name_cn : Option String
deriving DecidableEq

/-- A stored `fullData` JSON blob, as far as `fetchRating` reads it.
`parseJsonSafe(rating.fullData, \x7b\x7d)` is modelled by wrapping the blob in
`Option`: `none` stands for an absent or unparseable column (the `\x7b\x7d`
fallback). -/

structure FullData where
  cigarInfo : Option FullCigarInfo
  finalGrade : Option FullGrade
deriving DecidableEq

/-- A row of the `ratings` table as selected by `fetchRating`. String
columns are `Option String` (`none` = SQL NULL); `normalizedScore` is a
numeric column; `imageUrl` is stored as JSON text whose decoding
(`JSON.parse` with `[]` fallback on failure or non-string) is modelled
by an `Option (List String)` holding the decoded list. -/

structure RatingRow where
  title : Option String
  normalizedScore : Option JsNumber
  cigarReview : Option String
  imageUrl : Option (List String)
  cigarName : Option String
  cigarSize : Option String
  cigarOrigin : Option String
  finalGrade_grade : Option String
  finalGrade_name_cn : Option String
  userNickname : Option String
  userEmail : Option String
  fullData : Option FullData
deriving DecidableEq

/-- JavaScript `a || b || null` over nullable strings. -/

def jsOrOptOpt (a b : Option String) : Option String :=
  if truthyStr a then a else if truthyStr b then b else none

/-- `fetchRating` from the source, given the database lookup result for
the requested id: `none` stands for no matching row. -/

def fetchRating (row : Option RatingRow) : Except String RatingData :=
  match row with
  | none => .error "Rating not found."
  | some r =>
    let imageUrls := r.imageUrl.getD []
    let fullData := r.fullData.getD ⟨none, none⟩
    let fdCigar := fullData.cigarInfo.getD ⟨none, none, none⟩
    let cigarInfo : CigarInfo :=
      { name := jsOrOptOpt r.cigarName fdCigar.name,
        size := jsOrOptOpt r.cigarSize fdCigar.size,
        origin := jsOrOptOpt r.cigarOrigin fdCigar.origin }
    let fg0 := fullData.finalGrade.getD ⟨none, none, none⟩
    let fg1 : FullGrade :=
      if ¬ truthyStr fg0.grade ∧ truthyStr r.finalGrade_grade then
        { fg0 with grade := r.finalGrade_grade } else fg0
    let fg2 : FullGrade :=
      if ¬ truthyStr fg1.name ∧ truthyStr r.finalGrade_name_cn then
        { fg1 with name := r.finalGrade_name_cn } else fg1
    .ok {
      title := jsOrOpt r.title "",
      score := match r.normalizedScore with
               | some x => .num x
               | none => .emptyStr,
      review := jsOrOpt r.cigarReview "",
      reviewer := jsOrOpt r.userNickname (jsOrOpt r.userEmail ""),
      cigarInfo := cigarInfo,
      finalGrade := ⟨fg2.grade, fg2.name, fg2.name_cn⟩,
      imageUrls := imageUrls }

/-- The nested `error` object of a platform error response body. -/

structure IgErrorInfo where
  message : Option String
  etype : Option String
  code : Option Nat
  error_subcode : Option Nat
  fbtrace_id : Option String
deriving DecidableEq

/-- `formatInstagramError` from the source: join the present (truthy)
diagnostic fields with a separator, behind a fixed marker; a missing or
falsy `message` falls back to the caller-supplied message. -/

def formatInstagramError (err : Option IgErrorInfo) (fallbackMessage : String) : String :=
  let i := err.getD ⟨none, none, none, none, none⟩
  let parts : List String :=
    (let m := jsOrOpt i.message fallbackMessage; if m = "" then [] else [m]) ++
    (match i.etype with
     | some t => if t = "" then [] else ["Type: " ++ t]
     | none => []) ++
    (match i.code with
     | some c => if c = 0 then [] else ["Code: " ++ toString c]
     | none => []) ++
    (match i.error_subcode with
     | some c => if c = 0 then [] else ["Subcode: " ++ toString c]
     | none => []) ++
    (match i.fbtrace_id with
     | some t => if t = "" then [] else ["Trace ID: " ++ t]
     | none => [])
  "Instagram Error: " ++ String.intercalate " | " parts

instance {ε α : Type} [DecidableEq ε] [DecidableEq α] : DecidableEq (Except ε α) := fun a b =>
  match a, b with
  | .error e, .error f => decidable_of_iff (e = f) (by simp)
  | .ok x, .ok y => decidable_of_iff (x = y) (by simp)
  | .error _, .ok _ => isFalse (fun h => by cases h)
  | .ok _, .error _ => isFalse (fun h => by cases h)

/-- Number of polling attempts of `waitForMediaStatus` (`maxAttempts`). -/

def maxAttempts : Nat := 10

/-- Milliseconds slept between polling attempts (`setTimeout(r, 2000)`). -/

def pollDelayMs : Nat := 2000

/-- Outcome of a polling run: the result, the number of status reads
performed, and the number of sleeps performed. -/

structure PollOutcome where
  result : Except String Unit
  calls : Nat
  sleeps : Nat
deriving DecidableEq

/-- Timeout message of `waitForMediaStatus`. -/

def timeoutMessage (containerId : String) : String :=
  "Timeout waiting for media " ++ containerId ++ " to process"

/-- Error-status message of `waitForMediaStatus`. -/

def mediaFailedMessage (containerId : String) : String :=
  "Media processing failed for container " ++ containerId

/-- Loop body of `waitForMediaStatus`. `readStatus n` is the
`status_code` field reported by the platform on the `n`-th status read
(counting all reads of this container from 0); `fuel` is the number of
attempts left, `calls` and `sleeps` count the reads and sleeps already
performed. Each attempt reads once, returns on `FINISHED`, throws on
`ERROR`, and otherwise sleeps before the next attempt — including when
it was the final attempt. -/

def waitForMediaStatusAux (readStatus : Nat → String) (containerId : String) :
    Nat → Nat → Nat → PollOutcome
  | 0, calls, sleeps => ⟨.error (timeoutMessage containerId), calls, sleeps⟩
  | fuel + 1, calls, sleeps =>
    let status := readStatus calls
    if status = "FINISHED" then ⟨.ok (), calls + 1, sleeps⟩
    else if status = "ERROR" then ⟨.error (mediaFailedMessage containerId), calls + 1, sleeps⟩
    else waitForMediaStatusAux readStatus containerId fuel (calls + 1) (sleeps + 1)

/-- `waitForMediaStatus` from the source, against a status stub. -/

def waitForMediaStatus (readStatus : Nat → String) (containerId : String) : PollOutcome :=
  waitForMediaStatusAux readStatus containerId maxAttempts 0 0

/-- A remote platform interaction performed by the orchestrator. -/

inductive Event where
  | createItem (imageUrl : String)
  | statusRead (containerId : String)
  | sleep (ms : Nat)
  | createCarousel (children : String) (caption : String)
  | publishPost (creationId : String)
deriving DecidableEq

/-- Response to a container-creation request: HTTP success flag, the
`id` field, and the `error` object (if any) of the body. -/

structure CreateResp where
  ok : Bool
  id : Option String
  err : Option IgErrorInfo
deriving DecidableEq

/-- The container id accepted by the `!res.ok || !data.id` guards: present
only when the call succeeded and the body carries a truthy id. -/

def acceptedId (resp : CreateResp) : Option String :=
  match resp.id with
  | some s => if resp.ok ∧ s ≠ "" then some s else none
  | none => none

/-- Stub of the remote platform for one publish request. `itemResp n`
answers the `n`-th carousel-item creation; `statusOf cid n` answers the
`n`-th status read of container `cid`; `carouselResp` answers the
carousel creation; `publishResp` answers the publish call. -/

structure IgStub where
  itemResp : Nat → CreateResp
  statusOf : String → Nat → String
  carouselResp : CreateResp
  publishResp : CreateResp

/-- Interleaved read/sleep trace of one polling run (reads and sleeps
alternate; a sleep follows every read except, on success or error, the
terminal one). -/

def pollTrace (containerId : String) (o : PollOutcome) : List Event :=
  ((List.range o.calls).map
    (fun n => Event.statusRead containerId ::
      (if n < o.sleeps then [Event.sleep pollDelayMs] else []))).flatten

/-- Result-plus-trace of a phase of the orchestrator. -/

structure PhaseOut (α : Type) where
  result : Except String α
  trace : List Event
deriving DecidableEq

/-- The `for (const key of imageKeys)` loop of `onRequestPost`: for each
image key in order, create a carousel-item container and poll it to
readiness; abort on the first creation failure, error status, or
timeout. `idx` numbers the creation calls. Returns the accumulated
container ids in submission order. -/

def processItems (ig : IgStub) (origin : String) : List String → Nat → PhaseOut (List String)
  | [], _ => ⟨.ok [], []⟩
  | key :: rest, idx =>
    let imageUrl := origin ++ "/api/image/" ++ key
    let resp := ig.itemResp idx
    match acceptedId resp with
    | none => ⟨.error (formatInstagramError resp.err "Failed to upload carousel item"),
               [Event.createItem imageUrl]⟩
    | some cid =>
      let po := waitForMediaStatus (ig.statusOf cid) cid
      match po.result with
      | .error e => ⟨.error e, Event.createItem imageUrl :: pollTrace cid po⟩
      | .ok _ =>
        let next := processItems ig origin rest (idx + 1)
        match next.result with
        | .error e => ⟨.error e, Event.createItem imageUrl :: pollTrace cid po ++ next.trace⟩
        | .ok ids => ⟨.ok (cid :: ids), Event.createItem imageUrl :: pollTrace cid po ++ next.trace⟩

/-- `publishContainer` from the source: publish the container, falling
back to the submitted `creationId` when the response omits an id. -/

def publishContainer (resp : CreateResp) (creationId : String) : Except String String :=
  if resp.ok then .ok (jsOrOpt resp.id creationId)
  else .error (formatInstagramError resp.err "Failed to publish Instagram media.")

/-- Carousel stage of `onRequestPost`: create the carousel container
over the comma-joined child ids, poll it to readiness, then publish it. -/

def carouselPhase (ig : IgStub) (caption : String) (containerIds : List String) :
    PhaseOut String :=
  let children := String.intercalate "," containerIds
  let ev := Event.createCarousel children caption
  match acceptedId ig.carouselResp with
  | none => ⟨.error (formatInstagramError ig.carouselResp.err "Failed to create carousel container"),
             [ev]⟩
  | some carId =>
    let po := waitForMediaStatus (ig.statusOf carId) carId
    match po.result with
    | .error e => ⟨.error e, ev :: pollTrace carId po⟩
    | .ok _ =>
      ⟨publishContainer ig.publishResp carId,
       ev :: pollTrace carId po ++ [Event.publishPost carId]⟩

/-- Inputs of one publish request that come from the inbound call and
the external collaborators: the authorization decision (the identity
collaborator of `validateSuperAdmin`; an `error` is a thrown
authorization failure), the request body fields, and the request origin. -/

structure OrchInput where
  authResult : Except String Unit
  ratingId : Option String
  overrideImageKeys : Option (List String)
  origin : String

/-- The system environment read by the orchestrator: the
`system_configs` key-value store and the `ratings` row matching the
requested id (if any). -/

structure SysEnv where
  config : String → Option String
  ratingRow : Option RatingRow

/-- The image keys resolved by `onRequestPost`: the override list when
it is a non-empty array, else the rating's own image references. -/

def resolvedImageKeys (inp : OrchInput) (rating : RatingData) : List String :=
  let targetKeys := inp.overrideImageKeys.getD []
  if targetKeys.length > 0 then targetKeys else rating.imageUrls

/-- Configuration-incompleteness message of `onRequestPost`. -/

def configIncompleteMessage : String :=
  "Instagram configuration is incomplete. Please set the token and business account ID."

/-- `onRequestPost` from the source (the publish orchestrator), with all
remote platform interactions recorded in the trace. Authorization and
table setup run first; then the body is validated, configuration loaded
and checked, the rating fetched, the image set resolved, every image
uploaded as a carousel item and polled to readiness, the carousel
container created and polled, and finally the container published. -/

def onRequestPost (inp : OrchInput) (env : SysEnv) (ig : IgStub) : PhaseOut String :=
  match inp.authResult with
  | .error e => ⟨.error e, []⟩
  | .ok _ =>
    match inp.ratingId with
    | none => ⟨.error "ratingId is required.", []⟩
    | some _ =>
      let accessToken := env.config "IG_ACCESS_TOKEN"
      let igUserId := env.config "IG_USER_ID"
      let template := jsOrOpt (env.config "IG_TEMPLATE") DEFAULT_TEMPLATE
      if truthyStr accessToken ∧ truthyStr igUserId then
        match fetchRating env.ratingRow with
        | .error e => ⟨.error e, []⟩
        | .ok rating =>
          let imageKeys := resolvedImageKeys inp rating
          if imageKeys.length = 0 then ⟨.error "This rating has no image to publish.", []⟩
          else
            let items := processItems ig inp.origin imageKeys 0
            match items.result with
            | .error e => ⟨.error e, items.trace⟩
            | .ok containerIds =>
              let car := carouselPhase ig (buildCaption template rating) containerIds
              ⟨car.result, items.trace ++ car.trace⟩
      else ⟨.error configIncompleteMessage, []⟩

def rowOneImage : RatingRow :=
  { title := some "T", normalizedScore := some (.fin (mkRat 91 1)), cigarReview := some "R",
    imageUrl := some ["k1"], cigarName := none, cigarSize := none, cigarOrigin := none,
    finalGrade_grade := none, finalGrade_name_cn := none, userNickname := none,
    userEmail := none, fullData := none }

def stubAllOk : IgStub :=
  { itemResp := fun _ => ⟨true, some "item1", none⟩,
    statusOf := fun _ _ => "FINISHED",
    carouselResp := ⟨true, some "car1", none⟩,
    publishResp := ⟨true, some "pub1", none⟩ }

def inpOne : OrchInput :=
  { authResult := .ok (), ratingId := some "r1", overrideImageKeys := none, origin := "https://o" }

def envOne : SysEnv :=
  { config := fun k =>
      if k = "IG_ACCESS_TOKEN" then some "tok"
      else if k = "IG_USER_ID" then some "uid"
      else if k = "IG_TEMPLATE" then some "X" else none,
    ratingRow := some rowOneImage }

/-- Terminal status readings of the polling loop: the only two values
the source compares against. -/

def isTerminalStatus (s : String) : Bool := s = "FINISHED" || s = "ERROR"

/-- Index of the first terminal status reading in the window
`[i, i + fuel)`, if any. -/

def firstTerminalIdx (readStatus : Nat → String) : Nat → Nat → Option Nat
  | 0, _ => none
  | fuel + 1, i =>
    if isTerminalStatus (readStatus i) then some i
    else firstTerminalIdx readStatus fuel (i + 1)

/-- Container-creation events (either kind of `POST .../media`). -/

def isCreationEvent : Event → Bool
  | .createItem _ => true
  | .createCarousel _ _ => true
  | _ => false

/-- The container-creation requests of a trace, in order. -/

def creationEvents (tr : List Event) : List Event := tr.filter isCreationEvent

/-- The image URL of an item-creation event. -/

def itemUrlOf : Event → Option String
  | .createItem u => some u
  | _ => none

/-- The effective caption template used by a request. -/

def effectiveTemplate (env : SysEnv) : String :=
  jsOrOpt (env.config "IG_TEMPLATE") DEFAULT_TEMPLATE

def ratingOne : RatingData :=
  { title := "T", score := .num (.fin (mkRat 91 1)), review := "R", reviewer := "",
    cigarInfo := ⟨none, none, none⟩, finalGrade := ⟨none, none, none⟩, imageUrls := ["k1"] }

def envNoTemplate : SysEnv :=
  { config := fun k =>
      if k = "IG_ACCESS_TOKEN" then some "tok"
      else if k = "IG_USER_ID" then some "uid" else none,
    ratingRow := some rowOneImage }

def envNoToken : SysEnv :=
  { config := fun k => if k = "IG_USER_ID" then some "uid" else none,
    ratingRow := some rowOneImage }

def stubFailFirstItem : IgStub :=
  { itemResp := fun _ => ⟨false, none, none⟩,
    statusOf := fun _ _ => "FINISHED",
    carouselResp := ⟨true, some "car1", none⟩,
    publishResp := ⟨true, some "pub1", none⟩ }

def rowThreeImages : RatingRow :=
  { rowOneImage with imageUrl := some ["A", "B", "C"] }

def stubThreeItems : IgStub :=
  { itemResp := fun n => ⟨true, some ("id" ++ toString n), none⟩,
    statusOf := fun _ _ => "FINISHED",
    carouselResp := ⟨true, some "car1", none⟩,
    publishResp := ⟨true, some "pub1", none⟩ }

def rowNoScore : RatingRow := { rowOneImage with normalizedScore := none }

/-- Well-formed caption templates: a sequence of brace-free literal
characters and complete placeholder tokens with nonempty, brace-free
content. -/

inductive GoodTpl : List Char → Prop where
  | nil : GoodTpl []
  | lit {c : Char} {l : List Char} : c ≠ '\x7b' → c ≠ '\x7d' → GoodTpl l → GoodTpl (c :: l)
  | tok {mid l : List Char} : mid ≠ [] → (∀ c ∈ mid, c ≠ '\x7b' ∧ c ≠ '\x7d') → GoodTpl l →
      GoodTpl ('\x7b' :: '\x7b' :: (mid ++ '\x7d' :: '\x7d' :: l))

/-- Absence of brace characters, as a computable check. -/

def noBraces (l : List Char) : Bool := l.all (fun c => c != '\x7b' && c != '\x7d')

example : formatScore (.num (.fin (mkRat 123 10))) = "12.3" := by decide

example : formatScore (.num (.fin (mkRat 1230 100))) = "12.3" := by decide

example : formatScore .null = "" := by decide

example : formatScore .emptyStr = "0" := by decide

example : formatScore (.num .nan) = "" := by decide

example : formatScore (.num (.fin (mkRat 1234 100))) = "12.34" := by decide

example : formatScore (.num (.fin (mkRat 12 1))) = "12" := by decide

example : formatScore (.num (.fin (mkRat (-5) 100))) = "-0.05" := by decide

example : buildCaption "hello" emptyRating = "hello" := by decide

example : buildCaption "\x7b\x7btitle\x7d\x7d!" { emptyRating with title := "T" } = "T!" := by decide

example : buildCaption "\x7b\x7b TITLE \x7d\x7d!" { emptyRating with title := "T" } = "T!" := by decide

example : buildCaption "x\x7b\x7bunknown\x7d\x7dy" emptyRating = "xy" := by decide

example : buildCaption "\x7b\x7ba\x7d\x7b\x7bb\x7d\x7d\x7d" emptyRating = "\x7b\x7ba\x7d\x7d" := by decide

example : buildCaption "\x7b\x7b\x7d\x7d" emptyRating = "\x7b\x7b\x7d\x7d" := by decide

example : buildCaption "\x7b\x7bscore\x7d\x7d" { emptyRating with score := .emptyStr } = "0" := by decide

example : buildCaption "" { emptyRating with title := "T", score := .num (.fin (mkRat 123 10)), review := "R" }
    = "T 获得 12.3 分! \n\nR\n\n#Cigar #Pistacho." := by decide

example : (onRequestPost inpOne envOne stubAllOk).result = .ok "pub1" := by decide

example : (onRequestPost inpOne envOne stubAllOk).trace =
    [Event.createItem "https://o/api/image/k1", Event.statusRead "item1",
     Event.createCarousel "item1" "X", Event.statusRead "car1",
     Event.publishPost "car1"] := by decide

example : (waitForMediaStatus (fun _ => "ERROR") "c").calls = 1 := by decide

example : (waitForMediaStatus (fun _ => "READY") "c") =
    ⟨.error (timeoutMessage "c"), 10, 10⟩ := by decide

example : (waitForMediaStatus (fun n => if n < 9 then "IN_PROGRESS" else "FINISHED") "c") =
    ⟨.ok (), 10, 9⟩ := by decide

theorem firstTerminalIdx_ge (readStatus : Nat → String) :
    ∀ fuel i k, firstTerminalIdx readStatus fuel i = some k → i ≤ k := by
  intro fuel
  induction fuel with
  | zero => intro i k h; simp [firstTerminalIdx] at h
  | succ n ih =>
    intro i k h
    simp only [firstTerminalIdx] at h
    split at h
    · cases h; omega
    · have := ih (i + 1) k h; omega

theorem firstTerminalIdx_lt (readStatus : Nat → String) :
    ∀ fuel i k, firstTerminalIdx readStatus fuel i = some k → k < i + fuel := by
  intro fuel
  induction fuel with
  | zero => intro i k h; simp [firstTerminalIdx] at h
  | succ n ih =>
    intro i k h
    simp only [firstTerminalIdx] at h
    split at h
    · cases h; omega
    · have := ih (i + 1) k h; omega

theorem firstTerminalIdx_terminal (readStatus : Nat → String) :
    ∀ fuel i k, firstTerminalIdx readStatus fuel i = some k →
      isTerminalStatus (readStatus k) = true := by
  intro fuel
  induction fuel with
  | zero => intro i k h; simp [firstTerminalIdx] at h
  | succ n ih =>
    intro i k h
    simp only [firstTerminalIdx] at h
    split at h
    · cases h; assumption
    · exact ih (i + 1) k h

theorem firstTerminalIdx_of_terminal (readStatus : Nat → String) :
    ∀ fuel i k, i ≤ k → k < i + fuel →
      (∀ j, i ≤ j → j < k → isTerminalStatus (readStatus j) = false) →
      isTerminalStatus (readStatus k) = true →
      firstTerminalIdx readStatus fuel i = some k := by
  intro fuel
  induction fuel with
  | zero => intro i k h1 h2; omega
  | succ n ih =>
    intro i k h1 h2 hpre hterm
    simp only [firstTerminalIdx]
    by_cases hik : i = k
    · subst hik; simp [hterm]
    · have hik2 : i < k := by omega
      have : isTerminalStatus (readStatus i) = false := hpre i (le_refl i) hik2
      simp only [this]
      simp only [Bool.false_eq_true, if_false]
      exact ih (i + 1) k (by omega) (by omega) (fun j hj1 hj2 => hpre j (by omega) hj2) hterm

theorem firstTerminalIdx_of_none (readStatus : Nat → String) :
    ∀ fuel i, (∀ j, i ≤ j → j < i + fuel → isTerminalStatus (readStatus j) = false) →
      firstTerminalIdx readStatus fuel i = none := by
  intro fuel
  induction fuel with
  | zero => intro i _; rfl
  | succ n ih =>
    intro i hpre
    simp only [firstTerminalIdx]
    have : isTerminalStatus (readStatus i) = false := hpre i (le_refl i) (by omega)
    simp only [this, Bool.false_eq_true, if_false]
    exact ih (i + 1) (fun j hj1 hj2 => hpre j (by omega) (by omega))

/-- Characterization of the polling loop body: it stops at the first
terminal reading in its window — succeeding on `FINISHED`, failing on
`ERROR` — having slept after every earlier reading, and times out with
one sleep per reading when no reading in the window is terminal. -/

theorem waitForMediaStatusAux_characterization
    (readStatus : Nat → String) (containerId : String) :
    ∀ fuel c s, waitForMediaStatusAux readStatus containerId fuel c s =
      match firstTerminalIdx readStatus fuel c with
      | some k =>
        ⟨if readStatus k = "FINISHED" then Except.ok ()
          else Except.error (mediaFailedMessage containerId), k + 1, s + (k - c)⟩
      | none => ⟨Except.error (timeoutMessage containerId), c + fuel, s + fuel⟩ := by
  intro fuel
  induction fuel with
  | zero => intro c s; rfl
  | succ n ih =>
    intro c s
    by_cases hF : readStatus c = "FINISHED"
    · simp [waitForMediaStatusAux, firstTerminalIdx, hF, isTerminalStatus]
    · by_cases hE : readStatus c = "ERROR"
      · simp [waitForMediaStatusAux, firstTerminalIdx, hF, hE, isTerminalStatus]
      · have ht : isTerminalStatus (readStatus c) = false := by
          simp [isTerminalStatus, hF, hE]
        rw [show waitForMediaStatusAux readStatus containerId (n + 1) c s =
            waitForMediaStatusAux readStatus containerId n (c + 1) (s + 1) by
          simp [waitForMediaStatusAux, hF, hE]]
        rw [ih (c + 1) (s + 1)]
        rw [show firstTerminalIdx readStatus (n + 1) c =
            firstTerminalIdx readStatus n (c + 1) by
          simp [firstTerminalIdx, ht]]
        cases hft : firstTerminalIdx readStatus n (c + 1) with
        | none => simp only []; congr 1 <;> omega
        | some k =>
          have hk := firstTerminalIdx_ge readStatus n (c + 1) k hft
          simp only []
          congr 1
          omega

/-- The polling loop performs at most `maxAttempts` status reads. -/

theorem waitForMediaStatus_calls_le (readStatus : Nat → String) (containerId : String) :
    (waitForMediaStatus readStatus containerId).calls ≤ maxAttempts := by
  unfold waitForMediaStatus
  rw [waitForMediaStatusAux_characterization]
  cases hft : firstTerminalIdx readStatus maxAttempts 0 with
  | none => simp
  | some k =>
    have := firstTerminalIdx_lt readStatus maxAttempts 0 k hft
    simp only []
    omega

theorem timeoutMessage_ne_mediaFailedMessage (cid : String) :
    timeoutMessage cid ≠ mediaFailedMessage cid := by
  intro h
  have h2 := congrArg String.length h
  simp only [timeoutMessage, mediaFailedMessage, String.length_append] at h2
  have e1 : ("Timeout waiting for media " : String).length = 26 := by decide
  have e2 : (" to process" : String).length = 11 := by decide
  have e3 : ("Media processing failed for container " : String).length = 38 := by decide
  rw [e1, e2, e3] at h2
  omega

/-- C4: `waitForMediaStatus` performs at most `maxAttempts = 10` status
reads; against a stub reporting a pending status nine times and then
`FINISHED` it succeeds on the 10th attempt having made exactly 10 status
calls; against a stub that never leaves pending it fails after exactly
`maxAttempts` status calls with the timeout message identifying the
container. -/

theorem C4_waitForMediaStatus_bounded_attempts :
    (∀ (readStatus : Nat → String) (containerId : String),
      (waitForMediaStatus readStatus containerId).calls ≤ maxAttempts) ∧
    maxAttempts = 10 ∧
    waitForMediaStatus (fun n => if n < 9 then "IN_PROGRESS" else "FINISHED") "container-ten" =
      ⟨.ok (), 10, 9⟩ ∧
    (∀ containerId : String,
      waitForMediaStatus (fun _ => "IN_PROGRESS") containerId =
        ⟨.error (timeoutMessage containerId), maxAttempts, maxAttempts⟩) :=
  ⟨waitForMediaStatus_calls_le, rfl, by decide, fun _ => rfl⟩

/-- C2 counterexample: a reading of `READY` does not make the poll
succeed and a reading of `FAILED` does not make it fail immediately —
both are treated as still-pending, so a stub constantly reporting either
runs to the 10-call timeout (the claim predicts success as soon as
`READY`, and failure after exactly 1 call on `FAILED`). -/

theorem C2_counterexample :
    waitForMediaStatus (fun _ => "READY") "c" = ⟨.error (timeoutMessage "c"), 10, 10⟩ ∧
    waitForMediaStatus (fun _ => "FAILED") "c" = ⟨.error (timeoutMessage "c"), 10, 10⟩ ∧
    ¬ ((waitForMediaStatus (fun _ => "FAILED") "c").calls = 1) ∧
    ¬ ((waitForMediaStatus (fun _ => "READY") "c").result = .ok ()) := by
  refine ⟨rfl, rfl, by decide, by decide⟩

/-- C2 (amended): `waitForMediaStatus` succeeds as soon as a reading
reports `FINISHED` and fails immediately — performing no further status
reads — as soon as a reading reports `ERROR`; the statuses `READY` and
`FAILED` are not recognized as terminal. If the first terminal reading
is the `k`-th (0-based, within the attempt budget), the poll ends with
exactly `k + 1` status calls. -/

theorem C2_waitForMediaStatus_finished_error_only :
    ∀ (readStatus : Nat → String) (containerId : String) (k : Nat),
      k < maxAttempts →
      (∀ j, j < k → readStatus j ≠ "FINISHED" ∧ readStatus j ≠ "ERROR") →
      (readStatus k = "FINISHED" →
        waitForMediaStatus readStatus containerId = ⟨.ok (), k + 1, k⟩) ∧
      (readStatus k = "ERROR" →
        waitForMediaStatus readStatus containerId =
          ⟨.error (mediaFailedMessage containerId), k + 1, k⟩) := by
  intro readStatus containerId k hk hpre
  have hfirst : ∀ hterm : isTerminalStatus (readStatus k) = true,
      firstTerminalIdx readStatus maxAttempts 0 = some k := by
    intro hterm
    refine firstTerminalIdx_of_terminal readStatus maxAttempts 0 k (by omega) (by omega) ?_ hterm
    intro j _ hj2
    have := hpre j hj2
    simp [isTerminalStatus, this.1, this.2]
  constructor
  · intro hF
    unfold waitForMediaStatus
    rw [waitForMediaStatusAux_characterization]
    rw [hfirst (by simp [isTerminalStatus, hF])]
    simp [hF]
  · intro hE
    unfold waitForMediaStatus
    rw [waitForMediaStatusAux_characterization]
    rw [hfirst (by simp [isTerminalStatus, hE])]
    have : readStatus k ≠ "FINISHED" := by rw [hE]; decide
    simp [this]

/-- Witness for C2: against a stub reporting `ERROR` on the first call,
the poll fails after exactly one status call, with the media-failed
message. -/

theorem C2_witness :
    waitForMediaStatus (fun _ => "ERROR") "witness-c2" =
      ⟨.error (mediaFailedMessage "witness-c2"), 1, 0⟩ :=
  (C2_waitForMediaStatus_finished_error_only (fun _ => "ERROR") "witness-c2" 0 (by decide)
    (fun j hj => absurd hj (Nat.not_lt_zero j))).2 rfl

/-- C5 counterexample: the polling delay constant is 2000 ms, not the
claimed 1000 ms, and against a never-ready stub the loop sleeps 10 times
— it sleeps after the final status read as well, where the claim allows
a sleep only when attempts remain (at most 9 sleeps). -/

theorem C5_counterexample :
    pollDelayMs = 2000 ∧ pollDelayMs ≠ 1000 ∧
    (waitForMediaStatus (fun _ => "IN_PROGRESS") "c").sleeps = 10 ∧
    ¬ ((waitForMediaStatus (fun _ => "IN_PROGRESS") "c").sleeps ≤ maxAttempts - 1) := by
  refine ⟨rfl, by decide, rfl, by decide⟩

/-- C5 (amended): polling uses a fixed 2000 ms delay (no backoff: every
sleep event of any orchestrator trace carries the same constant); each
attempt performs one status read and then sleeps unless the reading was
terminal — so a poll that ends on a terminal reading sleeps once less
than it reads, while a poll that times out sleeps after every read,
including the final one. -/

theorem C5_fixed_interval_sleep_pattern :
    pollDelayMs = 2000 ∧
    (∀ (readStatus : Nat → String) (containerId : String),
      ((waitForMediaStatus readStatus containerId).result = .error (timeoutMessage containerId) →
        (waitForMediaStatus readStatus containerId).sleeps = maxAttempts ∧
        (waitForMediaStatus readStatus containerId).calls = maxAttempts) ∧
      ((waitForMediaStatus readStatus containerId).result ≠ .error (timeoutMessage containerId) →
        (waitForMediaStatus readStatus containerId).sleeps + 1 =
          (waitForMediaStatus readStatus containerId).calls)) := by
  refine ⟨rfl, fun readStatus containerId => ?_⟩
  unfold waitForMediaStatus
  rw [waitForMediaStatusAux_characterization]
  cases hft : firstTerminalIdx readStatus maxAttempts 0 with
  | none => exact ⟨fun _ => ⟨rfl, rfl⟩, fun h => absurd rfl h⟩
  | some k =>
    have hterm := firstTerminalIdx_terminal readStatus maxAttempts 0 k hft
    constructor
    · intro h
      simp only [] at h
      split at h
      · cases h
      · exact absurd (Except.error.inj h) (timeoutMessage_ne_mediaFailedMessage containerId).symm
    · intro _
      simp only []
      omega

/-- Witness for C5: a never-terminal stub sleeps `maxAttempts` times and
reads `maxAttempts` times. -/

theorem C5_witness :
    (waitForMediaStatus (fun _ => "X") "witness-c5").sleeps = maxAttempts ∧
    (waitForMediaStatus (fun _ => "X") "witness-c5").calls = maxAttempts :=
  (C5_fixed_interval_sleep_pattern.2 (fun _ => "X") "witness-c5").1 rfl

theorem pollTrace_mem (cid : String) (o : PollOutcome) :
    ∀ e ∈ pollTrace cid o, e = Event.statusRead cid ∨ e = Event.sleep pollDelayMs := by
  intro e he
  simp only [pollTrace, List.mem_flatten, List.mem_map, List.mem_range] at he
  obtain ⟨l, ⟨n, _, rfl⟩, hel⟩ := he
  rcases List.mem_cons.mp hel with rfl | he2
  · exact Or.inl rfl
  · right
    split at he2
    · simpa using he2
    · simp at he2

theorem pollTrace_no_creation (cid : String) (o : PollOutcome) :
    ∀ e ∈ pollTrace cid o, isCreationEvent e = false := by
  intro e he
  rcases pollTrace_mem cid o e he with rfl | rfl <;> rfl

theorem pollTrace_no_itemUrl (cid : String) (o : PollOutcome) :
    ∀ e ∈ pollTrace cid o, itemUrlOf e = none := by
  intro e he
  rcases pollTrace_mem cid o e he with rfl | rfl <;> rfl

theorem pollTrace_no_publish (cid : String) (o : PollOutcome) :
    ∀ e ∈ pollTrace cid o, ∀ c, e ≠ Event.publishPost c := by
  intro e he c
  rcases pollTrace_mem cid o e he with rfl | rfl <;> simp

theorem processItems_mem (ig : IgStub) (origin : String) :
    ∀ keys idx, ∀ e ∈ (processItems ig origin keys idx).trace,
      (∃ u, e = Event.createItem u) ∨ (∃ c, e = Event.statusRead c) ∨
        e = Event.sleep pollDelayMs := by
  intro keys
  induction keys with
  | nil => intro idx e he; simp [processItems] at he
  | cons key rest ih =>
    intro idx e he
    simp only [processItems] at he
    split at he
    · exact Or.inl ⟨_, List.mem_singleton.mp he⟩
    · split at he
      · rcases List.mem_cons.mp he with rfl | he2
        · exact Or.inl ⟨_, rfl⟩
        · rcases pollTrace_mem _ _ e he2 with rfl | rfl
          · exact Or.inr (Or.inl ⟨_, rfl⟩)
          · exact Or.inr (Or.inr rfl)
      · split at he
        · rcases List.mem_cons.mp he with rfl | he2
          · exact Or.inl ⟨_, rfl⟩
          · rcases List.mem_append.mp he2 with he3 | he3
            · rcases pollTrace_mem _ _ e he3 with rfl | rfl
              · exact Or.inr (Or.inl ⟨_, rfl⟩)
              · exact Or.inr (Or.inr rfl)
            · exact ih (idx + 1) e he3
        · rcases List.mem_cons.mp he with rfl | he2
          · exact Or.inl ⟨_, rfl⟩
          · rcases List.mem_append.mp he2 with he3 | he3
            · rcases pollTrace_mem _ _ e he3 with rfl | rfl
              · exact Or.inr (Or.inl ⟨_, rfl⟩)
              · exact Or.inr (Or.inr rfl)
            · exact ih (idx + 1) e he3

theorem processItems_no_carousel (ig : IgStub) (origin : String) (keys : List String)
    (idx : Nat) (ch cap : String) :
    Event.createCarousel ch cap ∉ (processItems ig origin keys idx).trace := by
  intro hmem
  rcases processItems_mem ig origin keys idx _ hmem with ⟨u, h⟩ | ⟨c, h⟩ | h <;> cases h

theorem processItems_no_publish (ig : IgStub) (origin : String) (keys : List String)
    (idx : Nat) (c : String) :
    Event.publishPost c ∉ (processItems ig origin keys idx).trace := by
  intro hmem
  rcases processItems_mem ig origin keys idx _ hmem with ⟨u, h⟩ | ⟨c2, h⟩ | h <;> cases h

theorem processItems_ok_polls (ig : IgStub) (origin : String) :
    ∀ keys idx ids, (processItems ig origin keys idx).result = .ok ids →
      ∀ cid ∈ ids, (waitForMediaStatus (ig.statusOf cid) cid).result = .ok () := by
  intro keys
  induction keys with
  | nil =>
    intro idx ids h cid hcid
    simp only [processItems] at h
    cases h
    simp at hcid
  | cons key rest ih =>
    intro idx ids h cid hcid
    cases hacc : acceptedId (ig.itemResp idx) with
    | none => simp only [processItems, hacc] at h; exact Except.noConfusion h
    | some cid1 =>
      cases hpo : (waitForMediaStatus (ig.statusOf cid1) cid1).result with
      | error e => simp only [processItems, hacc, hpo] at h; exact Except.noConfusion h
      | ok u =>
        cases hnext : (processItems ig origin rest (idx + 1)).result with
        | error e => simp only [processItems, hacc, hpo, hnext] at h; exact Except.noConfusion h
        | ok ids2 =>
          simp only [processItems, hacc, hpo, hnext] at h
          have hids : cid1 :: ids2 = ids := Except.ok.inj h
          subst hids
          rcases List.mem_cons.mp hcid with rfl | hmem
          · cases u; exact hpo
          · exact ih (idx + 1) ids2 hnext cid hmem

theorem processItems_ok_spec (ig : IgStub) (origin : String) :
    ∀ keys idx ids, (processItems ig origin keys idx).result = .ok ids →
      ids.length = keys.length ∧
      ((processItems ig origin keys idx).trace.filterMap itemUrlOf =
        keys.map (fun k => origin ++ "/api/image/" ++ k)) ∧
      (∀ j, j < keys.length → acceptedId (ig.itemResp (idx + j)) = some (ids.getD j "")) := by
  intro keys
  induction keys with
  | nil =>
    intro idx ids h
    simp only [processItems] at h
    cases h
    refine ⟨rfl, by simp [processItems], ?_⟩
    intro j hj
    simp at hj
  | cons key rest ih =>
    intro idx ids h
    cases hacc : acceptedId (ig.itemResp idx) with
    | none => simp only [processItems, hacc] at h; exact Except.noConfusion h
    | some cid1 =>
      cases hpo : (waitForMediaStatus (ig.statusOf cid1) cid1).result with
      | error e => simp only [processItems, hacc, hpo] at h; exact Except.noConfusion h
      | ok u =>
        cases hnext : (processItems ig origin rest (idx + 1)).result with
        | error e => simp only [processItems, hacc, hpo, hnext] at h; exact Except.noConfusion h
        | ok ids2 =>
          obtain ⟨hlen, hurls, hidx⟩ := ih (idx + 1) ids2 hnext
          simp only [processItems, hacc, hpo, hnext] at h ⊢
          have hids : cid1 :: ids2 = ids := Except.ok.inj h
          subst hids
          refine ⟨by simp [hlen], ?_, ?_⟩
          · simp only [List.filterMap_cons, itemUrlOf, List.filterMap_append]
            have hnil : (pollTrace cid1 (waitForMediaStatus (ig.statusOf cid1) cid1)).filterMap
                itemUrlOf = [] := by
              rw [List.filterMap_eq_nil_iff]
              exact pollTrace_no_itemUrl cid1 _
            rw [hnil, hurls]
            simp
          · intro j hj
            cases j with
            | zero => simpa using hacc
            | succ j2 =>
              have := hidx j2 (by simpa using hj)
              have heq : idx + (j2 + 1) = idx + 1 + j2 := by omega
              rw [heq, this]
              simp

theorem carouselPhase_creations (ig : IgStub) (caption : String) (ids : List String) :
    ∀ e ∈ (carouselPhase ig caption ids).trace, isCreationEvent e = true →
      e = Event.createCarousel (String.intercalate "," ids) caption := by
  intro e he hcr
  cases hacc : acceptedId ig.carouselResp with
  | none =>
    simp only [carouselPhase, hacc] at he
    exact List.mem_singleton.mp he
  | some carId =>
    cases hpo : (waitForMediaStatus (ig.statusOf carId) carId).result with
    | error err =>
      simp only [carouselPhase, hacc, hpo] at he
      rcases List.mem_cons.mp he with rfl | he2
      · rfl
      · rw [pollTrace_no_creation carId _ e he2] at hcr
        exact Bool.noConfusion hcr
    | ok u =>
      simp only [carouselPhase, hacc, hpo] at he
      rcases List.mem_cons.mp he with rfl | he2
      · rfl
      · rcases List.mem_append.mp he2 with he3 | he3
        · rw [pollTrace_no_creation carId _ e he3] at hcr
          exact Bool.noConfusion hcr
        · rw [List.mem_singleton.mp he3] at hcr
          exact Bool.noConfusion hcr

theorem carouselPhase_trace_shape (ig : IgStub) (caption : String) (ids : List String) :
    (carouselPhase ig caption ids).trace.head? =
      some (Event.createCarousel (String.intercalate "," ids) caption) := by
  cases hacc : acceptedId ig.carouselResp with
  | none => simp [carouselPhase, hacc]
  | some carId =>
    cases hpo : (waitForMediaStatus (ig.statusOf carId) carId).result with
    | error err => simp [carouselPhase, hacc, hpo]
    | ok u => simp [carouselPhase, hacc, hpo]

theorem carouselPhase_ok (ig : IgStub) (caption : String) (ids : List String) (pid : String) :
    (carouselPhase ig caption ids).result = .ok pid →
    ∃ carId, acceptedId ig.carouselResp = some carId ∧
      (waitForMediaStatus (ig.statusOf carId) carId).result = .ok () ∧
      ig.publishResp.ok = true ∧ pid = jsOrOpt ig.publishResp.id carId ∧
      (carouselPhase ig caption ids).trace =
        Event.createCarousel (String.intercalate "," ids) caption ::
          pollTrace carId (waitForMediaStatus (ig.statusOf carId) carId) ++
            [Event.publishPost carId] := by
  intro h
  cases hacc : acceptedId ig.carouselResp with
  | none => simp only [carouselPhase, hacc] at h; exact Except.noConfusion h
  | some carId =>
    cases hpo : (waitForMediaStatus (ig.statusOf carId) carId).result with
    | error err => simp only [carouselPhase, hacc, hpo] at h; exact Except.noConfusion h
    | ok u =>
      simp only [carouselPhase, hacc, hpo, publishContainer] at h
      refine ⟨carId, rfl, by cases u; exact hpo, ?_, ?_, ?_⟩
      · by_contra hok
        rw [if_neg hok] at h
        exact Except.noConfusion h
      · by_cases hok : ig.publishResp.ok = true
        · rw [if_pos hok] at h
          exact (Except.ok.inj h).symm
        · rw [if_neg hok] at h
          exact Except.noConfusion h
      · simp [carouselPhase, hacc, hpo]

/-- Case analysis of `onRequestPost`: either it fails before any remote
platform call (empty trace), or the rating was fetched and the item
phase ran — failing and aborting, or succeeding and handing its ids to
the carousel phase. -/

theorem onRequestPost_cases (inp : OrchInput) (env : SysEnv) (ig : IgStub) :
    (∃ e, onRequestPost inp env ig = ⟨.error e, []⟩) ∨
    (∃ rating, fetchRating env.ratingRow = .ok rating ∧
      ((∃ e, (processItems ig inp.origin (resolvedImageKeys inp rating) 0).result = .error e ∧
        onRequestPost inp env ig =
          ⟨.error e, (processItems ig inp.origin (resolvedImageKeys inp rating) 0).trace⟩) ∨
      (∃ ids, (processItems ig inp.origin (resolvedImageKeys inp rating) 0).result = .ok ids ∧
        onRequestPost inp env ig =
          ⟨(carouselPhase ig (buildCaption (effectiveTemplate env) rating) ids).result,
           (processItems ig inp.origin (resolvedImageKeys inp rating) 0).trace ++
             (carouselPhase ig (buildCaption (effectiveTemplate env) rating) ids).trace⟩))) := by
  cases hauth : inp.authResult with
  | error e => exact Or.inl ⟨e, by simp only [onRequestPost, hauth]⟩
  | ok u =>
    cases hrid : inp.ratingId with
    | none => exact Or.inl ⟨"ratingId is required.", by simp only [onRequestPost, hauth, hrid]⟩
    | some rid =>
      by_cases hcfg : (truthyStr (env.config "IG_ACCESS_TOKEN") = true ∧
          truthyStr (env.config "IG_USER_ID") = true)
      · cases hrat : fetchRating env.ratingRow with
        | error e =>
          refine Or.inl ⟨e, ?_⟩
          simp only [onRequestPost, hauth, hrid, hrat, if_pos hcfg]
        | ok rating =>
          by_cases hkeys : (resolvedImageKeys inp rating).length = 0
          · refine Or.inl ⟨"This rating has no image to publish.", ?_⟩
            simp only [onRequestPost, hauth, hrid, hrat, if_pos hcfg, if_pos hkeys]
          · refine Or.inr ⟨rating, rfl, ?_⟩
            cases hitems : (processItems ig inp.origin (resolvedImageKeys inp rating) 0).result with
            | error e =>
              refine Or.inl ⟨e, rfl, ?_⟩
              simp only [onRequestPost, hauth, hrid, hrat, if_pos hcfg, if_neg hkeys, hitems,
                effectiveTemplate]
            | ok ids =>
              refine Or.inr ⟨ids, rfl, ?_⟩
              simp only [onRequestPost, hauth, hrid, hrat, if_pos hcfg, if_neg hkeys, hitems,
                effectiveTemplate]
      · exact Or.inl ⟨configIncompleteMessage,
          by simp only [onRequestPost, hauth, hrid, if_neg hcfg]⟩

/-- C3: a carousel-creation request is issued only when the item phase
succeeded — every referenced child container id was accepted and polled
to a successful (`FINISHED`) readiness result, and every item-phase
event precedes the carousel event in the trace; and when any child
creation or readiness poll fails, the publish aborts with an error,
with no carousel-creation and no publish request ever issued. -/

theorem C3_carousel_only_after_children_ready :
    (∀ (inp : OrchInput) (env : SysEnv) (ig : IgStub) (ch cap : String),
      Event.createCarousel ch cap ∈ (onRequestPost inp env ig).trace →
      ∃ rating ids,
        fetchRating env.ratingRow = .ok rating ∧
        (processItems ig inp.origin (resolvedImageKeys inp rating) 0).result = .ok ids ∧
        ch = String.intercalate "," ids ∧
        (∀ cid ∈ ids, (waitForMediaStatus (ig.statusOf cid) cid).result = .ok ()) ∧
        ∃ carTrace,
          (onRequestPost inp env ig).trace =
            (processItems ig inp.origin (resolvedImageKeys inp rating) 0).trace ++ carTrace ∧
          ∀ ch2 cap2, Event.createCarousel ch2 cap2 ∉
            (processItems ig inp.origin (resolvedImageKeys inp rating) 0).trace) ∧
    (∀ (inp : OrchInput) (env : SysEnv) (ig : IgStub) (rating : RatingData) (e : String),
      fetchRating env.ratingRow = .ok rating →
      (processItems ig inp.origin (resolvedImageKeys inp rating) 0).result = .error e →
      (∀ ch cap, Event.createCarousel ch cap ∉ (onRequestPost inp env ig).trace) ∧
      (∀ c, Event.publishPost c ∉ (onRequestPost inp env ig).trace) ∧
      ∃ e2, (onRequestPost inp env ig).result = .error e2) := by
  constructor
  · intro inp env ig ch cap hmem
    rcases onRequestPost_cases inp env ig with ⟨e, heq⟩ | ⟨rating, hrat, hrest⟩
    · rw [heq] at hmem
      simp at hmem
    · rcases hrest with ⟨e, herr, heq⟩ | ⟨ids, hok, heq⟩
      · rw [heq] at hmem
        exact absurd hmem (processItems_no_carousel ig inp.origin _ 0 ch cap)
      · rw [heq] at hmem
        simp only [List.mem_append] at hmem
        rcases hmem with hmem | hmem
        · exact absurd hmem (processItems_no_carousel ig inp.origin _ 0 ch cap)
        · have := carouselPhase_creations ig _ ids _ hmem rfl
          have hch : ch = String.intercalate "," ids := by
            cases this
            rfl
          have hcap : cap = buildCaption (effectiveTemplate env) rating := by
            cases this
            rfl
          refine ⟨rating, ids, hrat, hok, hch,
            processItems_ok_polls ig inp.origin _ 0 ids hok, ?_⟩
          exact ⟨(carouselPhase ig (buildCaption (effectiveTemplate env) rating) ids).trace,
            by rw [heq], fun ch2 cap2 => processItems_no_carousel ig inp.origin _ 0 ch2 cap2⟩
  · intro inp env ig rating e hrat herr
    rcases onRequestPost_cases inp env ig with ⟨e2, heq⟩ | ⟨rating2, hrat2, hrest⟩
    · rw [heq]
      exact ⟨fun ch cap => by simp, fun c => by simp, e2, rfl⟩
    · have : rating2 = rating := by
        rw [hrat] at hrat2
        exact (Except.ok.inj hrat2).symm
      subst this
      rcases hrest with ⟨e3, herr3, heq⟩ | ⟨ids, hok, heq⟩
      · rw [heq]
        exact ⟨fun ch cap => processItems_no_carousel ig inp.origin _ 0 ch cap,
          fun c => processItems_no_publish ig inp.origin _ 0 c, e3, rfl⟩
      · rw [herr] at hok
        exact Except.noConfusion hok

/-- C9: on a successful item phase the item-container creation requests
appear in the trace in exactly the order of the image key list, each
returned child container id is the accepted id of the corresponding
(index-aligned) creation response, and the carousel creation request —
always the first event of the carousel phase — carries the comma-joined
child ids in that same order. -/

theorem C9_submission_order_preserved :
    ∀ (ig : IgStub) (origin : String) (keys : List String) (idx : Nat) (ids : List String),
      (processItems ig origin keys idx).result = .ok ids →
      ((processItems ig origin keys idx).trace.filterMap itemUrlOf =
        keys.map (fun k => origin ++ "/api/image/" ++ k)) ∧
      ids.length = keys.length ∧
      (∀ j, j < keys.length → acceptedId (ig.itemResp (idx + j)) = some (ids.getD j "")) ∧
      (∀ caption, (carouselPhase ig caption ids).trace.head? =
        some (Event.createCarousel (String.intercalate "," ids) caption)) := by
  intro ig origin keys idx ids h
  obtain ⟨hlen, hurls, hidx⟩ := processItems_ok_spec ig origin keys idx ids h
  exact ⟨hurls, hlen, hidx, fun caption => carouselPhase_trace_shape ig caption ids⟩

theorem intercalate_comma_singleton (a : String) : String.intercalate "," [a] = a := rfl

theorem creationEvents_append (a b : List Event) :
    creationEvents (a ++ b) = creationEvents a ++ creationEvents b :=
  List.filter_append a b

theorem creationEvents_pollTrace (cid : String) (o : PollOutcome) :
    creationEvents (pollTrace cid o) = [] := by
  rw [creationEvents, List.filter_eq_nil_iff]
  intro e he
  rw [pollTrace_no_creation cid o e he]
  simp

theorem creationEvents_of_item_shape :
    ∀ tr : List Event,
      (∀ e ∈ tr, (∃ u, e = Event.createItem u) ∨ (∃ c, e = Event.statusRead c) ∨
        e = Event.sleep pollDelayMs) →
      creationEvents tr = (tr.filterMap itemUrlOf).map Event.createItem := by
  intro tr
  induction tr with
  | nil => intro _; rfl
  | cons e tr2 ih =>
    intro h
    have he := h e (List.mem_cons_self e tr2)
    have htr : ∀ e2 ∈ tr2, (∃ u, e2 = Event.createItem u) ∨ (∃ c, e2 = Event.statusRead c) ∨
        e2 = Event.sleep pollDelayMs :=
      fun e2 he2 => h e2 (List.mem_cons_of_mem e he2)
    rcases he with ⟨u, rfl⟩ | ⟨c, rfl⟩ | rfl
    · simp only [creationEvents, List.filter_cons, List.filterMap_cons]
      rw [creationEvents] at ih
      simp [ih htr, isCreationEvent, itemUrlOf]
    · simp only [creationEvents, List.filter_cons, List.filterMap_cons]
      rw [creationEvents] at ih
      simp [ih htr, isCreationEvent, itemUrlOf]
    · simp only [creationEvents, List.filter_cons, List.filterMap_cons]
      rw [creationEvents] at ih
      simp [ih htr, isCreationEvent, itemUrlOf]

theorem creationEvents_processItems (ig : IgStub) (origin : String) (keys : List String)
    (idx : Nat) :
    creationEvents (processItems ig origin keys idx).trace =
      ((processItems ig origin keys idx).trace.filterMap itemUrlOf).map Event.createItem :=
  creationEvents_of_item_shape _ (processItems_mem ig origin keys idx)

example : fetchRating (some rowOneImage) = .ok ratingOne := by decide

/-- C8: whenever the configuration store lacks a (truthy) access token
or business-account id, the publish request fails with the
configuration-incomplete error and the trace of remote platform calls
is empty. (Caller authorization is resolved by the external identity
collaborator before this check and is not a platform call.) -/

theorem C8_config_incomplete_no_remote_call :
    ∀ (inp : OrchInput) (env : SysEnv) (ig : IgStub) (rid : String) (u : Unit),
      inp.authResult = .ok u → inp.ratingId = some rid →
      ¬ (truthyStr (env.config "IG_ACCESS_TOKEN") = true ∧
         truthyStr (env.config "IG_USER_ID") = true) →
      onRequestPost inp env ig = ⟨.error configIncompleteMessage, []⟩ := by
  intro inp env ig rid u hauth hrid hcfg
  simp only [onRequestPost, hauth, hrid, if_neg hcfg]

/-- Witness for C8: a store holding only the business-account id makes
the publish fail with the configuration-incomplete message and an empty
platform trace. -/

theorem C8_witness :
    onRequestPost inpOne envNoToken stubAllOk = ⟨.error configIncompleteMessage, []⟩ :=
  C8_config_incomplete_no_remote_call inpOne envNoToken stubAllOk "r1" () rfl rfl (by decide)

/-- C1 counterexample: a publish whose resolved image set has exactly
one image creates two media containers, not one — an item container
(created with `is_carousel_item`, no caption) and then a carousel
container — although the publish succeeds and returns the platform's
publish id. -/

theorem C1_counterexample :
    resolvedImageKeys inpOne ratingOne = ["k1"] ∧
    (creationEvents (onRequestPost inpOne envOne stubAllOk).trace).length = 2 ∧
    Event.createCarousel "item1" "X" ∈ (onRequestPost inpOne envOne stubAllOk).trace ∧
    (onRequestPost inpOne envOne stubAllOk).result = .ok "pub1" := by
  refine ⟨rfl, by decide, by decide, by decide⟩

/-- C1 (amended): for a publish whose resolved image set is the single
image `k` and which returns `publishId = pid`, the orchestrator creates
exactly two containers — first an item container for `k`'s public URL,
then a carousel container whose `children` field is the single accepted
item id and which carries the rendered caption; both are polled to a
successful readiness result, the carousel is published, and `pid` is the
platform's returned id or, when the platform omits one, the submitted
carousel container id. -/

theorem C1_single_image_publish :
    ∀ (inp : OrchInput) (env : SysEnv) (ig : IgStub) (pid : String) (rating : RatingData)
      (k : String),
      fetchRating env.ratingRow = .ok rating →
      resolvedImageKeys inp rating = [k] →
      (onRequestPost inp env ig).result = .ok pid →
      ∃ cid carId,
        acceptedId (ig.itemResp 0) = some cid ∧
        (waitForMediaStatus (ig.statusOf cid) cid).result = .ok () ∧
        acceptedId ig.carouselResp = some carId ∧
        (waitForMediaStatus (ig.statusOf carId) carId).result = .ok () ∧
        creationEvents (onRequestPost inp env ig).trace =
          [Event.createItem (inp.origin ++ "/api/image/" ++ k),
           Event.createCarousel cid (buildCaption (effectiveTemplate env) rating)] ∧
        pid = jsOrOpt ig.publishResp.id carId := by
  intro inp env ig pid rating k hrat hkeys hres
  rcases onRequestPost_cases inp env ig with ⟨e, heq⟩ | ⟨rating2, hrat2, hrest⟩
  · rw [heq] at hres
    exact Except.noConfusion hres
  · have hr2 : rating2 = rating := by
      rw [hrat] at hrat2
      exact (Except.ok.inj hrat2).symm
    rw [hr2] at hrest
    rcases hrest with ⟨e, herr, heq⟩ | ⟨ids, hok, heq⟩
    · rw [heq] at hres
      exact Except.noConfusion hres
    · rw [hkeys] at hok heq
      obtain ⟨hlen, hurls, hidx⟩ := processItems_ok_spec ig inp.origin [k] 0 ids hok
      obtain ⟨cid, hcid⟩ := List.length_eq_one.mp (by simpa using hlen)
      subst hcid
      have hacc : acceptedId (ig.itemResp 0) = some cid := by
        have := hidx 0 (by simp)
        simpa using this
      have hpoll : (waitForMediaStatus (ig.statusOf cid) cid).result = .ok () :=
        processItems_ok_polls ig inp.origin [k] 0 [cid] hok cid (by simp)
      have hcar : (carouselPhase ig (buildCaption (effectiveTemplate env) rating) [cid]).result
          = .ok pid := by
        rw [heq] at hres
        exact hres
      obtain ⟨carId, hcaracc, hcarpoll, hpubok, hpid, hcartrace⟩ :=
        carouselPhase_ok ig (buildCaption (effectiveTemplate env) rating) [cid] pid hcar
      refine ⟨cid, carId, hacc, hpoll, hcaracc, hcarpoll, ?_, hpid⟩
      rw [heq]
      show creationEvents ((processItems ig inp.origin [k] 0).trace ++
        (carouselPhase ig (buildCaption (effectiveTemplate env) rating) [cid]).trace) = _
      rw [creationEvents_append, creationEvents_processItems, hurls, hcartrace]
      have : creationEvents (Event.createCarousel (String.intercalate "," [cid])
          (buildCaption (effectiveTemplate env) rating) ::
            pollTrace carId (waitForMediaStatus (ig.statusOf carId) carId) ++
            [Event.publishPost carId]) =
          [Event.createCarousel cid (buildCaption (effectiveTemplate env) rating)] := by
        simp only [creationEvents, List.filter_cons, List.filter_append]
        rw [intercalate_comma_singleton]
        have hpt : List.filter isCreationEvent
            (pollTrace carId (waitForMediaStatus (ig.statusOf carId) carId)) = [] := by
          rw [List.filter_eq_nil_iff]
          intro e he
          rw [pollTrace_no_creation carId _ e he]
          simp
        rw [hpt]
        rfl
      rw [this]
      rfl

/-- Witness for C1's amended theorem: the concrete one-image publish. -/

theorem C1_witness :
    ∃ cid carId,
      acceptedId (stubAllOk.itemResp 0) = some cid ∧
      (waitForMediaStatus (stubAllOk.statusOf cid) cid).result = .ok () ∧
      acceptedId stubAllOk.carouselResp = some carId ∧
      (waitForMediaStatus (stubAllOk.statusOf carId) carId).result = .ok () ∧
      creationEvents (onRequestPost inpOne envOne stubAllOk).trace =
        [Event.createItem (inpOne.origin ++ "/api/image/" ++ "k1"),
         Event.createCarousel cid (buildCaption (effectiveTemplate envOne) ratingOne)] ∧
      "pub1" = jsOrOpt stubAllOk.publishResp.id carId :=
  C1_single_image_publish inpOne envOne stubAllOk "pub1" ratingOne "k1"
    (by decide) rfl (by decide)

/-- C10: when the configuration store has no caption template (key
absent or value empty), the effective template is the built-in default
`DEFAULT_TEMPLATE`, and the publish does not fail for that reason — a
request against a store holding only the token and account id publishes
successfully, the caption being composed from the default template. -/

theorem C10_missing_template_uses_default :
    (∀ env : SysEnv,
      env.config "IG_TEMPLATE" = none ∨ env.config "IG_TEMPLATE" = some "" →
      effectiveTemplate env = DEFAULT_TEMPLATE) ∧
    (onRequestPost inpOne envNoTemplate stubAllOk).result = .ok "pub1" ∧
    Event.createCarousel "item1" (buildCaption DEFAULT_TEMPLATE ratingOne) ∈
      (onRequestPost inpOne envNoTemplate stubAllOk).trace := by
  refine ⟨?_, by decide, by decide⟩
  intro env h
  rcases h with h | h <;> simp [effectiveTemplate, jsOrOpt, h, DEFAULT_TEMPLATE]

/-- Witness for C10: the concrete store lacking the template key. -/

theorem C10_witness : effectiveTemplate envNoTemplate = DEFAULT_TEMPLATE :=
  C10_missing_template_uses_default.1 envNoTemplate (Or.inl rfl)

/-- Witness for C3: with the first item-container creation rejected by
the platform, the publish aborts with no carousel creation and no
publish call in the trace. -/

theorem C3_witness :
    Event.createCarousel "item1" "X" ∉
      (onRequestPost inpOne envOne stubFailFirstItem).trace ∧
    Event.publishPost "car1" ∉ (onRequestPost inpOne envOne stubFailFirstItem).trace := by
  have h := C3_carousel_only_after_children_ready.2 inpOne envOne stubFailFirstItem ratingOne
    "Instagram Error: Failed to upload carousel item" (by decide) (by decide)
  exact ⟨h.1 "item1" "X", h.2.1 "car1"⟩

/-- Witness for C9: three images `A`, `B`, `C` produce item creations in
that order and a carousel child list `id0,id1,id2`. -/

theorem C9_witness :
    ((processItems stubThreeItems "https://o" ["A", "B", "C"] 0).trace.filterMap itemUrlOf =
      ["https://o/api/image/A", "https://o/api/image/B", "https://o/api/image/C"]) ∧
    (carouselPhase stubThreeItems "cap" ["id0", "id1", "id2"]).trace.head? =
      some (Event.createCarousel "id0,id1,id2" "cap") := by
  have h := C9_submission_order_preserved stubThreeItems "https://o" ["A", "B", "C"] 0
    ["id0", "id1", "id2"] (by decide)
  exact ⟨h.1.trans (by decide), (h.2.2.2 "cap").trans (by decide)⟩

/-- C6: evaluation at the failing input. A rating row whose
`normalizedScore` column is NULL (score absent) is fetched with the
empty-string score fallback, and the composed caption renders its score
field as `"0"` — not the empty string the claim requires — because
`Number('') = 0`; `formatScore`'s own nullish/`NaN`/non-finite guards
(which do return the empty string, as does the `12.30 ↦ "12.3"`
formatting) are bypassed by `fetchRating`'s `?? ''` fallback. -/

theorem C6_absent_score_renders_zero :
    (∃ data, fetchRating (some rowNoScore) = .ok data ∧ data.score = .emptyStr ∧
      buildCaption "\x7b\x7bscore\x7d\x7d" data = "0" ∧
      buildCaption "\x7b\x7bscore\x7d\x7d" data ≠ "") ∧
    formatScore .null = "" ∧
    formatScore (.num .nan) = "" ∧
    formatScore (.num .posInf) = "" ∧
    formatScore (.num (.fin (mkRat 1230 100))) = "12.3" := by
  exact ⟨⟨{ ratingOne with score := .emptyStr }, by decide, rfl, by decide, by decide⟩,
    rfl, rfl, rfl, by decide⟩

/-- C7 counterexample: on the template `\x7b\x7ba\x7d\x7b\x7bb\x7d\x7d\x7d` the cleanup
pass erases the inner placeholder and thereby splices the surrounding
text into a fresh, well-formed placeholder `\x7b\x7ba\x7d\x7d`, which remains in
the output — the output itself still matches the cleanup pattern, so an
unresolved placeholder token is left in the caption. -/

theorem C7_counterexample :
    buildCaption "\x7b\x7ba\x7d\x7b\x7bb\x7d\x7d\x7d" emptyRating = "\x7b\x7ba\x7d\x7d" ∧
    matchCleanupAt (buildCaption "\x7b\x7ba\x7d\x7b\x7bb\x7d\x7d\x7d" emptyRating).toList =
      some [] ∧
    (buildCaption "\x7b\x7ba\x7d\x7b\x7bb\x7d\x7d\x7d" emptyRating).toList =
      [] ++ '\x7b' :: '\x7b' :: (['a'] ++ '\x7d' :: '\x7d' :: []) := by
  refine ⟨by decide, by decide, by decide⟩

theorem expandDollar_no_dollar (m b a : List Char) :
    ∀ n v, v.length ≤ n → '$' ∉ v → expandDollar m b a v = v := by
  intro n
  induction n with
  | zero =>
    intro v hlen _
    have hv : v = [] := List.eq_nil_of_length_eq_zero (Nat.le_zero.mp hlen)
    rw [hv]
    rfl
  | succ n2 ih =>
    intro v hlen hd
    match v with
    | [] => rfl
    | [c] => rfl
    | c :: d :: r =>
      have hc : c ≠ '$' := fun h => hd (h ▸ List.mem_cons_self c (d :: r))
      have hd2 : '$' ∉ d :: r := fun h => hd (List.mem_cons_of_mem c h)
      simp only [expandDollar, if_neg hc]
      rw [ih (d :: r) (by simpa using hlen) hd2]

theorem stripKeyCI_suffix : ∀ key l t, stripKeyCI key l = some t → t.length ≤ l.length ∧ t <:+ l := by
  intro key
  induction key with
  | nil =>
    intro l t h
    cases h
    exact ⟨le_refl _, List.suffix_refl _⟩
  | cons k ks ih =>
    intro l t h
    cases l with
    | nil => cases h
    | cons c cs =>
      simp only [stripKeyCI] at h
      split at h
      · have := ih cs t h
        exact ⟨Nat.le_succ_of_le this.1, this.2.trans (List.suffix_cons c cs)⟩
      · cases h

theorem dropWhile_suffix_length (p : Char → Bool) (l : List Char) :
    (l.dropWhile p).length ≤ l.length ∧ l.dropWhile p <:+ l :=
  ⟨(List.dropWhile_suffix p).length_le, List.dropWhile_suffix p⟩

theorem matchKeyAt_some_spec (key l m r : List Char) :
    matchKeyAt key l = some (m, r) → r.length + 4 ≤ l.length ∧ l = m ++ r := by
  intro h
  match l with
  | [] => cases h
  | [c] => cases h
  | c1 :: c2 :: t =>
    simp only [matchKeyAt] at h
    split at h
    · split at h
      · exact Option.noConfusion h
      · rename_i t2 hstrip
        split at h
        · rename_i d1 d2 r3 hdrop
          split at h
          · have hpair := (Option.some.inj h).symm
            have hm : m = List.take ((c1 :: c2 :: t).length - r3.length) (c1 :: c2 :: t) :=
              congrArg Prod.fst hpair
            have hr : r = r3 := congrArg Prod.snd hpair
            subst hr
            have h1 := dropWhile_suffix_length isJsSpace t
            have h2 := stripKeyCI_suffix key _ t2 hstrip
            have h3 := dropWhile_suffix_length isJsSpace t2
            rw [hdrop] at h3
            have hlen : r.length + 4 ≤ (c1 :: c2 :: t).length := by
              simp only [List.length_cons] at h1 h2 h3 ⊢
              omega
            refine ⟨hlen, ?_⟩
            have hsuff : r <:+ c1 :: c2 :: t := by
              have hstep : r <:+ d1 :: d2 :: r := ⟨[d1, d2], rfl⟩
              have hsfx := ((hstep.trans (hdrop ▸ h3.2)).trans h2.2).trans h1.2
              exact hsfx.trans ⟨[c1, c2], rfl⟩
            obtain ⟨p, hp⟩ := hsuff
            rw [hm, ← hp]
            have hplen : (p ++ r).length - r.length = p.length := by
              simp [List.length_append]
            rw [hplen, List.take_left]
          · exact Option.noConfusion h
        · exact Option.noConfusion h
    · exact Option.noConfusion h

theorem matchCleanupAt_some_spec (l r : List Char) :
    matchCleanupAt l = some r → r.length + 4 ≤ l.length := by
  intro h
  match l with
  | [] => cases h
  | [c] => cases h
  | c1 :: c2 :: t =>
    simp only [matchCleanupAt] at h
    split at h
    · split at h
      · rename_i d1 d2 r3 hdrop
        split at h
        · cases h
          have h1 := dropWhile_suffix_length (fun c => c != '\x7d') t
          rw [hdrop] at h1
          simp only [List.length_cons] at h1 ⊢
          omega
        · exact Option.noConfusion h
      · exact Option.noConfusion h
    · exact Option.noConfusion h

theorem replaceKeyAux_fuel (key value : List Char) (hd : '$' ∉ value) :
    ∀ n l, l.length ≤ n → ∀ f1 f2 pre1 pre2, l.length ≤ f1 → l.length ≤ f2 →
      replaceKeyAux key value f1 pre1 l = replaceKeyAux key value f2 pre2 l := by
  intro n
  induction n with
  | zero =>
    intro l hlen f1 f2 pre1 pre2 _ _
    have hl : l = [] := List.eq_nil_of_length_eq_zero (Nat.le_zero.mp hlen)
    subst hl
    cases f1 <;> cases f2 <;> rfl
  | succ n2 ih =>
    intro l hlen f1 f2 pre1 pre2 h1 h2
    cases l with
    | nil => cases f1 <;> cases f2 <;> rfl
    | cons c rest =>
      simp only [List.length_cons] at hlen h1 h2
      cases f1 with
      | zero => omega
      | succ g1 =>
        cases f2 with
        | zero => omega
        | succ g2 =>
          cases hmat : matchKeyAt key (c :: rest) with
          | none =>
            simp only [replaceKeyAux, hmat]
            exact congrArg _ (ih rest (by omega) g1 g2 _ _ (by omega) (by omega))
          | some pr =>
            obtain ⟨m, r⟩ := pr
            obtain ⟨hrlen, _⟩ := matchKeyAt_some_spec key (c :: rest) m r hmat
            simp only [List.length_cons] at hrlen
            simp only [replaceKeyAux, hmat]
            rw [expandDollar_no_dollar m pre1 r value.length value (le_refl _) hd,
              expandDollar_no_dollar m pre2 r value.length value (le_refl _) hd]
            exact congrArg _ (ih r (by omega) g1 g2 _ _ (by omega) (by omega))

theorem replaceKey_cons_none (key value : List Char) (c : Char) (rest : List Char)
    (hd : '$' ∉ value) (h : matchKeyAt key (c :: rest) = none) :
    replaceKey key value (c :: rest) = c :: replaceKey key value rest := by
  unfold replaceKey
  simp only [List.length_cons, replaceKeyAux, h]
  exact congrArg _
    (replaceKeyAux_fuel key value hd rest.length rest (le_refl _) rest.length rest.length
      _ _ (le_refl _) (le_refl _))

theorem replaceKey_match (key value l m r : List Char)
    (hd : '$' ∉ value) (h : matchKeyAt key l = some (m, r)) :
    replaceKey key value l = value ++ replaceKey key value r := by
  obtain ⟨hlen, _⟩ := matchKeyAt_some_spec key l m r h
  cases l with
  | nil => cases h
  | cons c rest =>
    simp only [List.length_cons] at hlen
    unfold replaceKey
    simp only [List.length_cons, replaceKeyAux, h]
    rw [expandDollar_no_dollar m [] r value.length value (le_refl _) hd]
    exact congrArg _
      (replaceKeyAux_fuel key value hd rest.length r (by omega) rest.length r.length
        _ _ (by omega) (le_refl _))

theorem cleanupAux_fuel :
    ∀ n l, l.length ≤ n → ∀ f1 f2, l.length ≤ f1 → l.length ≤ f2 →
      cleanupAux f1 l = cleanupAux f2 l := by
  intro n
  induction n with
  | zero =>
    intro l hlen f1 f2 _ _
    have hl : l = [] := List.eq_nil_of_length_eq_zero (Nat.le_zero.mp hlen)
    subst hl
    cases f1 <;> cases f2 <;> rfl
  | succ n2 ih =>
    intro l hlen f1 f2 h1 h2
    cases l with
    | nil => cases f1 <;> cases f2 <;> rfl
    | cons c rest =>
      simp only [List.length_cons] at hlen h1 h2
      cases f1 with
      | zero => omega
      | succ g1 =>
        cases f2 with
        | zero => omega
        | succ g2 =>
          cases hmat : matchCleanupAt (c :: rest) with
          | none =>
            simp only [cleanupAux, hmat]
            exact congrArg _ (ih rest (by omega) g1 g2 (by omega) (by omega))
          | some r =>
            have hrlen := matchCleanupAt_some_spec (c :: rest) r hmat
            simp only [List.length_cons] at hrlen
            simp only [cleanupAux, hmat]
            exact ih r (by omega) g1 g2 (by omega) (by omega)

theorem cleanup_cons_none (c : Char) (rest : List Char)
    (h : matchCleanupAt (c :: rest) = none) :
    cleanupPlaceholders (c :: rest) = c :: cleanupPlaceholders rest := by
  unfold cleanupPlaceholders
  simp only [List.length_cons, cleanupAux, h]

theorem cleanup_match (l r : List Char) (h : matchCleanupAt l = some r) :
    cleanupPlaceholders l = cleanupPlaceholders r := by
  have hlen := matchCleanupAt_some_spec l r h
  cases l with
  | nil => cases h
  | cons c rest =>
    simp only [List.length_cons] at hlen
    unfold cleanupPlaceholders
    simp only [List.length_cons, cleanupAux, h]
    exact cleanupAux_fuel rest.length r (by omega) rest.length r.length (by omega) (le_refl _)

theorem matchKeyAt_none_head (key : List Char) (c : Char) (rest : List Char)
    (hc : c ≠ '\x7b') : matchKeyAt key (c :: rest) = none := by
  cases rest with
  | nil => rfl
  | cons c2 t => simp [matchKeyAt, hc]

theorem matchKeyAt_none_second (key : List Char) (c1 c2 : Char) (t : List Char)
    (hc : c2 ≠ '\x7b') : matchKeyAt key (c1 :: c2 :: t) = none := by
  simp [matchKeyAt, hc]

theorem matchCleanupAt_none_head (c : Char) (rest : List Char)
    (hc : c ≠ '\x7b') : matchCleanupAt (c :: rest) = none := by
  cases rest with
  | nil => rfl
  | cons c2 t => simp [matchCleanupAt, hc]

theorem matchCleanupAt_none_second (c1 c2 : Char) (t : List Char)
    (hc : c2 ≠ '\x7b') : matchCleanupAt (c1 :: c2 :: t) = none := by
  simp [matchCleanupAt, hc]

theorem replaceKey_no_open (key value : List Char) (hd : '$' ∉ value) :
    ∀ seg rest, (∀ c ∈ seg, c ≠ '\x7b') →
      replaceKey key value (seg ++ rest) = seg ++ replaceKey key value rest := by
  intro seg
  induction seg with
  | nil => intro rest _; rfl
  | cons c seg2 ih =>
    intro rest hseg
    have hc : c ≠ '\x7b' := hseg c (List.mem_cons_self c seg2)
    rw [List.cons_append,
      replaceKey_cons_none key value c (seg2 ++ rest) hd (matchKeyAt_none_head key c _ hc),
      ih rest (fun c2 hc2 => hseg c2 (List.mem_cons_of_mem c hc2))]
    rfl

theorem cleanup_no_open :
    ∀ seg rest, (∀ c ∈ seg, c ≠ '\x7b') →
      cleanupPlaceholders (seg ++ rest) = seg ++ cleanupPlaceholders rest := by
  intro seg
  induction seg with
  | nil => intro rest _; rfl
  | cons c seg2 ih =>
    intro rest hseg
    have hc : c ≠ '\x7b' := hseg c (List.mem_cons_self c seg2)
    rw [List.cons_append,
      cleanup_cons_none c (seg2 ++ rest) (matchCleanupAt_none_head c _ hc),
      ih rest (fun c2 hc2 => hseg c2 (List.mem_cons_of_mem c hc2))]
    rfl

theorem dropWhile_append_stop (p : Char → Bool) (y : Char) (hy : p y = false) :
    ∀ xs ys : List Char, List.dropWhile p (xs ++ y :: ys) = xs.dropWhile p ++ y :: ys := by
  intro xs ys
  induction xs with
  | nil => simp [List.dropWhile_cons, hy]
  | cons a xs2 ih =>
    cases ha : p a
    · simp [List.cons_append, List.dropWhile_cons, ha]
    · simp [List.cons_append, List.dropWhile_cons, ha, ih]

theorem takeWhile_append_stop (p : Char → Bool) (y : Char) (hy : p y = false) :
    ∀ xs ys : List Char, List.takeWhile p (xs ++ y :: ys) = xs.takeWhile p := by
  intro xs ys
  induction xs with
  | nil => simp [List.takeWhile_cons, hy]
  | cons a xs2 ih =>
    cases ha : p a
    · simp [List.cons_append, List.takeWhile_cons, ha]
    · simp [List.cons_append, List.takeWhile_cons, ha, ih]

theorem dropWhile_all_sat (p : Char → Bool) :
    ∀ xs : List Char, (∀ c ∈ xs, p c = true) → xs.dropWhile p = [] := by
  intro xs h
  induction xs with
  | nil => rfl
  | cons a xs2 ih =>
    simp only [List.dropWhile_cons, h a (List.mem_cons_self a xs2), if_true]
    exact ih (fun c hc => h c (List.mem_cons_of_mem a hc))

theorem takeWhile_all_sat (p : Char → Bool) :
    ∀ xs : List Char, (∀ c ∈ xs, p c = true) → xs.takeWhile p = xs := by
  intro xs h
  induction xs with
  | nil => rfl
  | cons a xs2 ih =>
    simp only [List.takeWhile_cons, h a (List.mem_cons_self a xs2), if_true]
    rw [ih (fun c hc => h c (List.mem_cons_of_mem a hc))]

theorem stripKeyCI_structure :
    ∀ key s t, stripKeyCI key s = some t →
      ∃ pre, s = pre ++ t ∧ ∀ c ∈ pre, ∃ k ∈ key, c.toLower = k.toLower := by
  intro key
  induction key with
  | nil =>
    intro s t h
    cases h
    exact ⟨[], rfl, by simp⟩
  | cons k ks ih =>
    intro s t h
    cases s with
    | nil => cases h
    | cons c cs =>
      simp only [stripKeyCI] at h
      split at h
      · rename_i hck
        obtain ⟨pre, hpre, hmem⟩ := ih cs t h
        refine ⟨c :: pre, by rw [List.cons_append, hpre], ?_⟩
        intro c2 hc2
        rcases List.mem_cons.mp hc2 with rfl | hc2
        · exact ⟨k, List.mem_cons_self k ks, hck⟩
        · obtain ⟨k2, hk2, he⟩ := hmem c2 hc2
          exact ⟨k2, List.mem_cons_of_mem k hk2, he⟩
      · cases h

theorem goodTpl_append_flat (v g : List Char) (hv : ∀ c ∈ v, c ≠ '\x7b' ∧ c ≠ '\x7d')
    (hg : GoodTpl g) : GoodTpl (v ++ g) := by
  induction v with
  | nil => exact hg
  | cons c v2 ih =>
    have hc := hv c (List.mem_cons_self c v2)
    exact GoodTpl.lit hc.1 hc.2 (ih (fun c2 hc2 => hv c2 (List.mem_cons_of_mem c hc2)))

theorem matchKeyAt_token_remainder (key mid l m r : List Char)
    (hkey : ∀ k ∈ key, k.toLower ≠ '\x7d')
    (hmid : ∀ c ∈ mid, c ≠ '\x7b' ∧ c ≠ '\x7d')
    (h : matchKeyAt key ('\x7b' :: '\x7b' :: (mid ++ '\x7d' :: '\x7d' :: l)) = some (m, r)) :
    r = l := by
  have hws : isJsSpace '\x7d' = false := by decide
  have hdw : (mid ++ '\x7d' :: '\x7d' :: l).dropWhile isJsSpace =
      mid.dropWhile isJsSpace ++ '\x7d' :: '\x7d' :: l := dropWhile_append_stop _ _ hws mid _
  simp only [matchKeyAt] at h
  rw [if_pos (⟨trivial, trivial⟩ : True ∧ True), hdw] at h
  cases hstrip : stripKeyCI key (mid.dropWhile isJsSpace ++ '\x7d' :: '\x7d' :: l) with
  | none =>
    simp only [hstrip] at h
    exact Option.noConfusion h
  | some t2 =>
    simp only [hstrip] at h
    obtain ⟨pre, hpre, hprec⟩ := stripKeyCI_structure key _ t2 hstrip
    have hpre_ne : ∀ c ∈ pre, c ≠ '\x7d' := by
      intro c hc hcc
      obtain ⟨k, hk, he⟩ := hprec c hc
      subst hcc
      have : ('\x7d' : Char).toLower = '\x7d' := by decide
      rw [this] at he
      exact hkey k hk he.symm
    have hmdw_sub : ∀ c ∈ mid.dropWhile isJsSpace, c ∈ mid :=
      fun c hc => (List.dropWhile_suffix isJsSpace).sublist.subset hc
    have hm2 : ∃ m2, t2 = m2 ++ '\x7d' :: '\x7d' :: l ∧ ∀ c ∈ m2, c ∈ mid := by
      rcases List.append_eq_append_iff.mp hpre with ⟨a, ha1, ha2⟩ | ⟨c', hc1, hc2⟩
      · cases a with
        | nil =>
          refine ⟨[], by simpa using ha2.symm, by simp⟩
        | cons x a2 =>
          have hx : x = '\x7d' := ((List.cons.injEq .. ▸ ha2).1).symm
          have hxpre : x ∈ pre := ha1 ▸ List.mem_append_right _ (List.mem_cons_self x a2)
          exact absurd hx (hpre_ne x hxpre)
      · exact ⟨c', hc2, fun c hc => hmdw_sub c (hc1 ▸ List.mem_append_right pre hc)⟩
    obtain ⟨m2, ht2m, hm2mid⟩ := hm2
    have hstop2 : t2.dropWhile isJsSpace = m2.dropWhile isJsSpace ++ '\x7d' :: '\x7d' :: l := by
      rw [ht2m]
      exact dropWhile_append_stop _ _ hws m2 _
    rw [hstop2] at h
    cases hm3 : m2.dropWhile isJsSpace with
    | nil =>
      rw [hm3] at h
      simp only [List.nil_append] at h
      rw [if_pos (⟨trivial, trivial⟩ : True ∧ True)] at h
      exact (congrArg Prod.snd (Option.some.inj h)).symm
    | cons c3 m3 =>
      rw [hm3] at h
      have hc3 : c3 ≠ '\x7d' := by
        have hc3m : c3 ∈ m2 := (List.dropWhile_suffix isJsSpace).sublist.subset
          (hm3 ▸ List.mem_cons_self c3 m3)
        exact (hmid c3 (hm2mid c3 hc3m)).2
      simp only [List.cons_append] at h
      split at h
      · rename_i d1 d2 r2 heq
        have hd1 : d1 = c3 := ((List.cons.injEq .. ▸ heq).1).symm
        split at h
        · rename_i hcond
          exact absurd (hd1 ▸ hcond.1) hc3
        · exact Option.noConfusion h
      · exact Option.noConfusion h

theorem matchCleanupAt_token (mid l : List Char) (hne : mid ≠ [])
    (hmid : ∀ c ∈ mid, c ≠ '\x7b' ∧ c ≠ '\x7d') :
    matchCleanupAt ('\x7b' :: '\x7b' :: (mid ++ '\x7d' :: '\x7d' :: l)) = some l := by
  have hmid2 : ∀ c ∈ mid, (c != '\x7d') = true := by
    intro c hc
    simpa using (hmid c hc).2
  have hstop : (fun c => c != '\x7d') '\x7d' = false := by decide
  have hdw : (mid ++ '\x7d' :: '\x7d' :: l).dropWhile (fun c => c != '\x7d') =
      '\x7d' :: '\x7d' :: l := by
    rw [dropWhile_append_stop (fun c => c != '\x7d') '\x7d' hstop mid ('\x7d' :: l),
      dropWhile_all_sat _ mid hmid2]
    rfl
  have htw : (mid ++ '\x7d' :: '\x7d' :: l).takeWhile (fun c => c != '\x7d') = mid := by
    rw [takeWhile_append_stop (fun c => c != '\x7d') '\x7d' hstop mid ('\x7d' :: l)]
    exact takeWhile_all_sat _ mid hmid2
  simp only [matchCleanupAt]
  rw [if_pos (⟨trivial, trivial⟩ : True ∧ True), hdw, htw]
  simp [hne]

theorem replaceKey_good (key value : List Char)
    (hkey : ∀ k ∈ key, k.toLower ≠ '\x7d')
    (hval : ∀ c ∈ value, c ≠ '\x7b' ∧ c ≠ '\x7d')
    (hd : '$' ∉ value) :
    ∀ l, GoodTpl l → GoodTpl (replaceKey key value l) := by
  intro l hg
  induction hg with
  | nil => exact GoodTpl.nil
  | lit hc1 hc2 hgl ih =>
    rename_i c0 l2
    rw [replaceKey_cons_none key value c0 l2 hd (matchKeyAt_none_head key c0 l2 hc1)]
    exact GoodTpl.lit hc1 hc2 ih
  | tok hne hmid hgl ih =>
    rename_i mid l2
    cases hmat : matchKeyAt key ('\x7b' :: '\x7b' :: (mid ++ '\x7d' :: '\x7d' :: l2)) with
    | some pr =>
      obtain ⟨m, r⟩ := pr
      have hr : r = l2 := matchKeyAt_token_remainder key mid l2 m r hkey hmid hmat
      rw [replaceKey_match key value _ m r hd hmat, hr]
      exact goodTpl_append_flat value _ hval ih
    | none =>
      have h1 : matchKeyAt key ('\x7b' :: (mid ++ '\x7d' :: '\x7d' :: l2)) = none := by
        cases mid with
        | nil => exact absurd rfl hne
        | cons cm mid2 =>
          exact matchKeyAt_none_second key '\x7b' cm _
            (hmid cm (List.mem_cons_self cm mid2)).1
      rw [replaceKey_cons_none key value '\x7b' _ hd hmat,
        replaceKey_cons_none key value '\x7b' _ hd h1,
        replaceKey_no_open key value hd mid ('\x7d' :: '\x7d' :: l2)
          (fun c hc => (hmid c hc).1),
        replaceKey_cons_none key value '\x7d' _ hd
          (matchKeyAt_none_head key '\x7d' _ (by decide)),
        replaceKey_cons_none key value '\x7d' l2 hd
          (matchKeyAt_none_head key '\x7d' l2 (by decide))]
      exact GoodTpl.tok hne hmid ih

theorem cleanup_good :
    ∀ l, GoodTpl l → ∀ c ∈ cleanupPlaceholders l, c ≠ '\x7b' ∧ c ≠ '\x7d' := by
  intro l hg
  induction hg with
  | nil => intro c hc; exact absurd hc (List.not_mem_nil c)
  | lit hc1 hc2 hgl ih =>
    rename_i c0 l2
    rw [cleanup_cons_none c0 l2 (matchCleanupAt_none_head c0 l2 hc1)]
    intro c hc
    rcases List.mem_cons.mp hc with rfl | hc
    · exact ⟨hc1, hc2⟩
    · exact ih c hc
  | tok hne hmid hgl ih =>
    rename_i mid l2
    rw [cleanup_match _ l2 (matchCleanupAt_token mid l2 hne hmid)]
    exact ih

theorem foldl_replaceKey_good :
    ∀ (kvs : List (String × String)) (l : List Char),
      GoodTpl l →
      (∀ kv ∈ kvs, (∀ k ∈ kv.1.toList, k.toLower ≠ '\x7d') ∧
        (∀ c ∈ kv.2.toList, c ≠ '\x7b' ∧ c ≠ '\x7d') ∧ '$' ∉ kv.2.toList) →
      GoodTpl (kvs.foldl (fun acc kv => replaceKey kv.1.toList kv.2.toList acc) l) := by
  intro kvs
  induction kvs with
  | nil => intro l hg _; exact hg
  | cons kv kvs2 ih =>
    intro l hg hkvs
    have h0 := hkvs kv (List.mem_cons_self kv kvs2)
    simp only [List.foldl_cons]
    exact ih _ (replaceKey_good kv.1.toList kv.2.toList h0.1 h0.2.1 h0.2.2 l hg)
      (fun kv2 hkv2 => hkvs kv2 (List.mem_cons_of_mem kv hkv2))

theorem replacements_keys_ok (data : RatingData) :
    ∀ kv ∈ replacements data, ∀ k ∈ kv.1.toList, k.toLower ≠ '\x7d' := by
  intro kv hkv
  simp only [replacements, List.mem_cons, List.not_mem_nil, or_false] at hkv
  rcases hkv with rfl | rfl | rfl | rfl | rfl | rfl | rfl | rfl | rfl
  · exact (by decide : ∀ k ∈ ("title" : String).toList, k.toLower ≠ '\x7d')
  · exact (by decide : ∀ k ∈ ("score" : String).toList, k.toLower ≠ '\x7d')
  · exact (by decide : ∀ k ∈ ("review" : String).toList, k.toLower ≠ '\x7d')
  · exact (by decide : ∀ k ∈ ("reviewer" : String).toList, k.toLower ≠ '\x7d')
  · exact (by decide : ∀ k ∈ ("name" : String).toList, k.toLower ≠ '\x7d')
  · exact (by decide : ∀ k ∈ ("origin" : String).toList, k.toLower ≠ '\x7d')
  · exact (by decide : ∀ k ∈ ("size" : String).toList, k.toLower ≠ '\x7d')
  · exact (by decide : ∀ k ∈ ("grade" : String).toList, k.toLower ≠ '\x7d')
  · exact (by decide : ∀ k ∈ ("gradeName" : String).toList, k.toLower ≠ '\x7d')

/-- C7 (amended): for every well-formed caption template — brace-free
literal text interleaved with complete `\x7b\x7b...\x7d\x7d` placeholders having
nonempty brace-free content — and every assignment whose replacement
values are free of braces and of dollar substitution patterns, the
composed caption contains no brace character at all, and in particular
no unresolved `\x7b\x7b...\x7d\x7d` token. (Known placeholders are substituted
case-insensitively with whitespace tolerated inside the braces; all
remaining well-shaped placeholders are erased. For arbitrary templates
the cleanup pass can splice new tokens together, see the
counterexample.) -/

theorem C7_wellformed_template_no_leak :
    ∀ (template : String) (data : RatingData),
      GoodTpl (jsOrStr template DEFAULT_TEMPLATE).toList →
      (∀ kv ∈ replacements data,
        (∀ c ∈ (kv.2 : String).toList, c ≠ '\x7b' ∧ c ≠ '\x7d') ∧
          '$' ∉ (kv.2 : String).toList) →
      noBraces (buildCaption template data).toList = true ∧
      ∀ pre mid post : List Char,
        (buildCaption template data).toList ≠
          pre ++ '\x7b' :: '\x7b' :: (mid ++ '\x7d' :: '\x7d' :: post) := by
  intro template data hg hvals
  have hflat : ∀ c ∈ (buildCaption template data).toList, c ≠ '\x7b' ∧ c ≠ '\x7d' := by
    have hfold := foldl_replaceKey_good (replacements data)
      (jsOrStr template DEFAULT_TEMPLATE).toList hg
      (fun kv hkv => ⟨replacements_keys_ok data kv hkv, (hvals kv hkv).1, (hvals kv hkv).2⟩)
    have hclean := cleanup_good _ hfold
    intro c hc
    rw [show buildCaption template data = List.asString (cleanupPlaceholders
        ((replacements data).foldl (fun acc kv => replaceKey kv.1.toList kv.2.toList acc)
          (jsOrStr template DEFAULT_TEMPLATE).toList)) from rfl] at hc
    rw [show ∀ l : List Char, (List.asString l).toList = l from fun _ => rfl] at hc
    exact hclean c hc
  constructor
  · simp only [noBraces, List.all_eq_true]
    intro c hc
    have h2 := hflat c hc
    simp [h2.1, h2.2]
  · intro pre mid post heq
    have hmem : '\x7b' ∈ (buildCaption template data).toList := by
      rw [heq]
      exact List.mem_append_right pre (List.mem_cons_self _ _)
    exact (hflat _ hmem).1 rfl

/-- Witness for C7's amended theorem: a concrete well-formed template
with brace-free field values composes to a brace-free caption. -/

theorem C7_witness :
    noBraces (buildCaption "a\x7b\x7btitle\x7d\x7d" emptyRating).toList = true := by
  have hgood : GoodTpl (jsOrStr "a\x7b\x7btitle\x7d\x7d" DEFAULT_TEMPLATE).toList := by
    show GoodTpl ('a' :: '\x7b' :: '\x7b' ::
      (['t', 'i', 't', 'l', 'e'] ++ '\x7d' :: '\x7d' :: []))
    exact GoodTpl.lit (by decide) (by decide)
      (GoodTpl.tok (by decide) (by decide) GoodTpl.nil)
  exact (C7_wellformed_template_no_leak "a\x7b\x7btitle\x7d\x7d" emptyRating hgood
    (by decide)).1
